import Mathlib

/-!
Verification development for the multi-strategy document-parsing engine
(backend/app/ai/parsing).  The Python code is shallowly embedded:

* JSON-ish Python values are modelled by `PyVal` (dicts as ordered
  association lists, floats as exact rationals — the code performs no
  float arithmetic beyond conversion and comparison on small constants);
* fallible Python code is modelled with `Except String`;
* the effectful collaborators (filesystem, PDF rasterisation, network
  inference) are abstracted as explicit outcome values fed to the
  embedded control flow, which is translated line by line from the source.
-/

/-- Model of a Python value as manipulated by the parsing engine.
Dicts are ordered key/value lists (Python dicts preserve insertion
order); floats are modelled as exact rationals. -/
inductive PyVal : Type where
  | pynone : PyVal
  | pybool : Bool → PyVal
  | pyint : Int → PyVal
  | pyfloat : Rat → PyVal
  | pystr : String → PyVal
  | pylist : List PyVal → PyVal
  | pydict : List (String × PyVal) → PyVal

/-- Python truthiness (`bool(v)`): None, False, 0, 0.0, "", [] and
empty dicts are falsy, everything else is truthy. -/
def pyTruthy : PyVal → Bool
  | .pynone => false
  | .pybool b => b
  | .pyint n => n != 0
  | .pyfloat q => q != 0
  | .pystr s => s != ""
  | .pylist l => !l.isEmpty
  | .pydict d => !d.isEmpty

/-- Python `a or b`: returns `a` when `a` is truthy, else `b`. -/
def pyOr (a b : PyVal) : PyVal := if pyTruthy a then a else b

/-- Python `d.get(k, dflt)` on a dict modelled as an ordered
association list: value of the first matching key, else the default. -/
def pyGetD (d : List (String × PyVal)) (k : String) (dflt : PyVal) : PyVal :=
  match d.find? (fun kv => kv.fst == k) with
  | some kv => kv.snd
  | none => dflt

/-- Python `d.get(k)` (default `None`). -/
def pyGet (d : List (String × PyVal)) (k : String) : PyVal :=
  pyGetD d k .pynone

/-- Python whitespace characters recognised by `str.strip()`
(ASCII subset; the engine's strings are ASCII). -/
def pySpace (c : Char) : Bool :=
  c == ' ' || c == '\t' || c == '\n' || c == '\r'

/-- Python `s.strip()` on the character list: drop leading whitespace,
then drop trailing whitespace. -/
def pyStripList (l : List Char) : List Char :=
  ((l.dropWhile pySpace).reverse.dropWhile pySpace).reverse

/-- Python `s.strip()`. -/
def pyStrip (s : String) : String :=
  ⟨pyStripList s.data⟩

/-- Python `str(v)`.  For the container cases only non-emptiness of the
rendering is ever observable downstream (the normalizer strips the text
and tests it against the empty string), so a placeholder rendering is
used for them; `str` of a list or dict is never empty in Python. -/
def pyStr : PyVal → String
  | .pynone => "None"
  | .pybool b => if b then "True" else "False"
  | .pyint n => toString n
  | .pyfloat q => toString q
  | .pystr s => s
  | .pylist _ => "<list>"
  | .pydict _ => "<dict>"

/-- Numeric value of a digit character. -/
def digitVal (c : Char) : Nat := c.toNat - 48

/-- Natural number denoted by a list of digit characters. -/
def digitsToNat (l : List Char) : Nat :=
  l.foldl (fun a c => a * 10 + digitVal c) 0

/-- Parse an unsigned decimal literal (digits with at most one point,
at least one digit), mirroring the forms `float(...)` accepts in the
code's inputs.  Exponent/inf/nan forms are outside the engine's data
and are not modelled. -/
def parseUnsigned? (l : List Char) : Option Rat :=
  match l.span Char.isDigit with
  | (ip, []) => if ip.isEmpty then none else some (digitsToNat ip : Rat)
  | (ip, '.' :: fp) =>
      if fp.all Char.isDigit && (!ip.isEmpty || !fp.isEmpty) then
        some ((digitsToNat ip : Rat) + (digitsToNat fp : Rat) / ((10 : Rat) ^ fp.length))
      else none
  | _ => none

/-- Python `float(s)` on a string: strip, optional sign, decimal
literal; `none` models the `ValueError` branch. -/
def pyFloatOfString? (s : String) : Option Rat :=
  match (pyStrip s).data with
  | '+' :: rest => parseUnsigned? rest
  | '-' :: rest => (parseUnsigned? rest).map Neg.neg
  | l => parseUnsigned? l

/-! OutputNormalizer (output_normalizer.py), translated method by method. -/

/-- OutputNormalizer._normalize_string: None stays None, strings are
stripped with empty collapsing to None, other values go through
`str(value).strip() or None`. -/
def normalizeString : PyVal → PyVal
  | .pynone => .pynone
  | .pystr s => if pyStrip s == "" then .pynone else .pystr (pyStrip s)
  | v => if pyStrip (pyStr v) == "" then .pynone else .pystr (pyStrip (pyStr v))

/-- OutputNormalizer._normalize_number: None stays None, ints/floats
(and bools, which are ints in Python) become floats, strings are
stripped of "," and "$" and parsed, anything else becomes None. -/
def normalizeNumber : PyVal → PyVal
  | .pynone => .pynone
  | .pybool b => .pyfloat (if b then 1 else 0)
  | .pyint n => .pyfloat (n : Rat)
  | .pyfloat q => .pyfloat q
  | .pystr s =>
      match pyFloatOfString? ⟨(pyStrip s).data.filter (fun c => c != ',' && c != '$')⟩ with
      | some q => .pyfloat q
      | none => .pynone
  | _ => .pynone

/-- Python iteration `for x in v`: lists yield elements, strings yield
one-character strings, dicts yield their keys; other values raise
`TypeError`. -/
def pyIter : PyVal → Except String (List PyVal)
  | .pylist l => .ok l
  | .pystr s => .ok (s.data.map (fun c => .pystr (String.singleton c)))
  | .pydict d => .ok (d.map (fun kv => .pystr kv.fst))
  | _ => .error "TypeError: object is not iterable"

/-- Loop body of OutputNormalizer._normalize_bid_items: the fixed field
set built from the alias chains of the source. -/
def normalizeBidItem (item : List (String × PyVal)) : List (String × PyVal) :=
  [("item_number", normalizeString (pyOr (pyGet item "item_number") (pyOr (pyGet item "number") (pyGet item "id")))),
   ("description", normalizeString (pyOr (pyGet item "description") (pyOr (pyGet item "desc") (pyGet item "name")))),
   ("quantity", normalizeNumber (pyOr (pyGet item "quantity") (pyOr (pyGet item "qty") (pyGet item "amount")))),
   ("unit", normalizeString (pyOr (pyGet item "unit") (pyOr (pyGet item "units") (pyGet item "uom")))),
   ("unit_price", normalizeNumber (pyOr (pyGet item "unit_price") (pyOr (pyGet item "price") (pyGet item "cost"))))]

/-- Per-element step of _normalize_bid_items: non-dicts and falsy
values are skipped, and the normalized item is kept only when it has an
item_number or a description. -/
def keepBidItem (v : PyVal) : Option PyVal :=
  match v with
  | .pydict d =>
      if d.isEmpty then none
      else
        let ni := normalizeBidItem d
        if pyTruthy (pyGet ni "item_number") || pyTruthy (pyGet ni "description") then
          some (.pydict ni)
        else none
  | _ => none

/-- OutputNormalizer._normalize_bid_items. -/
def normalizeBidItems (items : PyVal) : Except String PyVal :=
  match pyIter items with
  | .error e => .error e
  | .ok l => .ok (.pylist (l.filterMap keepBidItem))

/-- Loop body of OutputNormalizer._normalize_specifications. -/
def normalizeSpecItem (d : List (String × PyVal)) : List (String × PyVal) :=
  [("code", normalizeString (pyOr (pyGet d "code") (pyOr (pyGet d "spec_code") (pyGet d "specification")))),
   ("description", normalizeString (pyOr (pyGet d "description") (pyOr (pyGet d "desc") (pyGet d "title"))))]

/-- Per-element step of _normalize_specifications: kept only when it
has a code. -/
def keepSpecItem (v : PyVal) : Option PyVal :=
  match v with
  | .pydict d =>
      if d.isEmpty then none
      else
        let ns := normalizeSpecItem d
        if pyTruthy (pyGet ns "code") then some (.pydict ns) else none
  | _ => none

/-- OutputNormalizer._normalize_specifications. -/
def normalizeSpecifications (specs : PyVal) : Except String PyVal :=
  match pyIter specs with
  | .error e => .error e
  | .ok l => .ok (.pylist (l.filterMap keepSpecItem))

/-- OutputNormalizer._normalize_project_info: non-dicts and falsy
values are replaced by the empty dict, then the three fields are read
through their alias chains. -/
def normalizeProjectInfo (info : PyVal) : PyVal :=
  let d : List (String × PyVal) :=
    match info with
    | .pydict d => if d.isEmpty then [] else d
    | _ => []
  .pydict
    [("name", normalizeString (pyOr (pyGet d "name") (pyOr (pyGet d "project_name") (pyGet d "title")))),
     ("location", normalizeString (pyOr (pyGet d "location") (pyOr (pyGet d "site") (pyGet d "address")))),
     ("bid_date", normalizeString (pyOr (pyGet d "bid_date") (pyOr (pyGet d "date") (pyGet d "due_date"))))]

/-- Loop body of OutputNormalizer._normalize_materials. -/
def normalizeMaterialItem (d : List (String × PyVal)) : List (String × PyVal) :=
  [("name", normalizeString (pyOr (pyGet d "name") (pyOr (pyGet d "material") (pyGet d "description")))),
   ("quantity", normalizeNumber (pyOr (pyGet d "quantity") (pyOr (pyGet d "qty") (pyGet d "amount")))),
   ("unit", normalizeString (pyOr (pyGet d "unit") (pyOr (pyGet d "units") (pyGet d "uom")))),
   ("specification", normalizeString (pyOr (pyGet d "specification") (pyOr (pyGet d "spec") (pyGet d "spec_code"))))]

/-- Per-element step of _normalize_materials: kept only when it has a
name. -/
def keepMaterialItem (v : PyVal) : Option PyVal :=
  match v with
  | .pydict d =>
      if d.isEmpty then none
      else
        let nm := normalizeMaterialItem d
        if pyTruthy (pyGet nm "name") then some (.pydict nm) else none
  | _ => none

/-- OutputNormalizer._normalize_materials. -/
def normalizeMaterials (materials : PyVal) : Except String PyVal :=
  match pyIter materials with
  | .error e => .error e
  | .ok l => .ok (.pylist (l.filterMap keepMaterialItem))

/-- OutputNormalizer._empty_schema. -/
def emptySchema : PyVal :=
  .pydict
    [("bid_items", .pylist []),
     ("specifications", .pylist []),
     ("project_info", .pydict [("name", .pynone), ("location", .pynone), ("bid_date", .pynone)]),
     ("materials", .pylist [])]

/-- OutputNormalizer.normalize.  Falsy input returns the empty schema;
a truthy dict is normalized field by field, preserving raw_text when
present; a truthy non-dict raises (`data.get` fails).  The `Except`
layer carries the Python exceptions that escape from normalize. -/
def normalizeE (data : PyVal) : Except String PyVal :=
  if !pyTruthy data then .ok emptySchema
  else
    match data with
    | .pydict d =>
        match normalizeBidItems (pyGetD d "bid_items" (.pylist [])) with
        | .error e => .error e
        | .ok bi =>
        match normalizeSpecifications (pyGetD d "specifications" (.pylist [])) with
        | .error e => .error e
        | .ok sp =>
        match normalizeMaterials (pyGetD d "materials" (.pylist [])) with
        | .error e => .error e
        | .ok mat =>
            let base : List (String × PyVal) :=
              [("bid_items", bi),
               ("specifications", sp),
               ("project_info", normalizeProjectInfo (pyGetD d "project_info" (.pydict []))),
               ("materials", mat)]
            match d.find? (fun kv => kv.fst == "raw_text") with
            | some kv => .ok (.pydict (base ++ [("raw_text", kv.snd)]))
            | none => .ok (.pydict base)
    | _ => .error "AttributeError: object has no attribute get"

/-- OutputNormalizer.validate_schema: the four required keys must be
present with list/list/dict/list values. -/
def validateSchema (data : PyVal) : Bool :=
  match data with
  | .pydict d =>
      (["bid_items", "specifications", "project_info", "materials"].all
        (fun k => (d.find? (fun kv => kv.fst == k)).isSome))
      && (match pyGet d "bid_items" with | .pylist _ => true | _ => false)
      && (match pyGet d "specifications" with | .pylist _ => true | _ => false)
      && (match pyGet d "project_info" with | .pydict _ => true | _ => false)
      && (match pyGet d "materials" with | .pylist _ => true | _ => false)
  | _ => false

/-! ParseResult and StrategySelector.parse_with_fallback
(base_strategy.py, strategy_selector.py).  A strategy attempt is
abstracted as its observable outcome: either the ParseResult the
coroutine returned, or the message of the exception it raised.  The
fields of ParseResult that the claims speak about are modelled. -/

/-- ParseResult (base_strategy.py): the fields the selector reads or
rewrites.  `data` is `Optional[Dict]` in the source. -/
structure ParseResultM where
  success : Bool
  data : Option PyVal := none
  error : Option String := none
  confidenceScore : Rat := 0

/-- Outcome of `await strategy.parse(...)`: a returned ParseResult or a
raised exception's message. -/
inductive StratOutcome where
  | ok : ParseResultM → StratOutcome
  | exn : String → StratOutcome

/-- One entry of the strategy chain: the strategy's display name
(`get_name()`) together with the outcome its `parse` produces on this
document. -/
abbrev StratEntry := String × StratOutcome

/-- Python f-string interpolation of an `Optional[str]`:
`None` prints as "None". -/
def optErrStr : Option String → String
  | some s => s
  | none => "None"

/-- Python `sep.join(l)`. -/
def joinSep (sep : String) : List String → String
  | [] => ""
  | [x] => x
  | x :: y :: rest => x ++ sep ++ joinSep sep (y :: rest)

/-- The ParseResult built when the whole chain is exhausted
(strategy_selector.py lines 120-125). -/
def allFailedResult (errs : List String) : ParseResultM :=
  { success := false
    data := none
    error := some ("All parsing strategies failed. " ++ joinSep "; " errs)
    confidenceScore := 0 }

/-- The strategy loop of parse_with_fallback (lines 87-125): returns
the final ParseResult together with the names of the strategies that
were attempted.  A success with truthy data is normalized before being
returned; an exception raised by the normalizer is caught by the same
`except` and recorded like a strategy exception. -/
def runChainAux : List StratEntry → List String → ParseResultM × List String
  | [], errs => (allFailedResult errs, [])
  | (nm, o) :: rest, errs =>
      match o with
      | .exn m =>
          let p := runChainAux rest (errs ++ [nm ++ " exception: " ++ m])
          (p.fst, nm :: p.snd)
      | .ok r =>
          if r.success then
            match r.data with
            | some d =>
                if pyTruthy d then
                  match normalizeE d with
                  | .ok nd => ({ r with data := some nd }, [nm])
                  | .error m =>
                      let p := runChainAux rest (errs ++ [nm ++ " exception: " ++ m])
                      (p.fst, nm :: p.snd)
                else (r, [nm])
            | none => (r, [nm])
          else
            let p := runChainAux rest (errs ++ [nm ++ " failed: " ++ optErrStr r.error])
            (p.fst, nm :: p.snd)

/-- StrategySelector.parse_with_fallback, as a function of the built
chain: empty chain short-circuits, otherwise the strategy loop runs
with an empty error accumulator. -/
def parseWithFallback (chain : List StratEntry) : ParseResultM :=
  if chain.isEmpty then
    { success := false, data := none, error := some "No parsing strategies available", confidenceScore := 0 }
  else (runChainAux chain []).fst

/-- Names of the strategies whose `parse` is invoked during
parse_with_fallback, in invocation order. -/
def attemptedStrategies (chain : List StratEntry) : List String :=
  (runChainAux chain []).snd

/-- ClaudeTilingStrategy._parse_full_pages result payload as a function
of the JSON-parse outcome of the model response: the source returns
`data or` the empty dict, so an unparseable response (None), any falsy
parse, and the internal exception handler all collapse to the empty
dict. -/
def tilingFullPageData (parsed : Option PyVal) : PyVal :=
  match parsed with
  | some d => if pyTruthy d then d else .pydict []
  | none => .pydict []

/-! DocumentMetrics (base_strategy.py) and PDFAnalyzer
(utils/pdf_analyzer.py). -/

/-- File-size contribution of _calculate_complexity (0 to 0.3). -/
def sizeBand (fileSizeMb : Rat) : Rat :=
  if fileSizeMb < 5 then 0
  else if fileSizeMb < 20 then 1/10
  else if fileSizeMb < 50 then 2/10
  else 3/10

/-- Page-count contribution of _calculate_complexity (0 to 0.3). -/
def pageBand (pageCount : Int) : Rat :=
  if pageCount < 5 then 0
  else if pageCount < 15 then 1/10
  else if pageCount < 30 then 2/10
  else 3/10

/-- DPI contribution of _calculate_complexity (0 to 0.2).  The block is
guarded by Python truthiness of `self.average_dpi`, so both None and a
DPI of 0 contribute nothing. -/
def dpiBand (averageDpi : Option Int) : Rat :=
  match averageDpi with
  | some d =>
      if d != 0 then
        (if d < 150 then 0 else if d < 250 then 1/10 else 2/10)
      else 0
  | none => 0

/-- Scanned-document contribution of _calculate_complexity (0 or 0.2). -/
def scanBand (isScanned : Bool) : Rat :=
  if isScanned then 2/10 else 0

/-- DocumentMetrics._calculate_complexity: four independently banded
contributions (file size, page count, DPI, scanned flag), summed and
capped at 1.0. -/
def calculateComplexity (fileSizeMb : Rat) (pageCount : Int)
    (averageDpi : Option Int) (isScanned : Bool) : Rat :=
  min (sizeBand fileSizeMb + pageBand pageCount + dpiBand averageDpi + scanBand isScanned) 1

/-- DocumentMetrics as built by PDFAnalyzer.analyze (complexity_score
filled in by __post_init__ from the other fields). -/
structure DocMetrics where
  fileSizeMb : Rat
  pageCount : Int
  averageDpi : Option Int
  isScanned : Bool
  complexityScore : Rat

/-- Outcomes of the analyzer's four effectful introspection steps on a
given path: the size returned by `stat` (or the exception it raises),
and the raw results of the PyPDF2 page count, the DPI estimation from
rendered sample pages, and the scanned-text sampling (each of which the
analyzer wraps in try/except). -/
structure FsWorld where
  statSize : Except String Nat
  pageCountRaw : Except String Nat
  dpiRaw : Except String (Option Int)
  scannedRaw : Except String Bool

/-- PDFAnalyzer._get_page_count: any exception falls back to 1. -/
def getPageCount (w : FsWorld) : Nat :=
  match w.pageCountRaw with
  | .ok n => n
  | .error _ => 1

/-- PDFAnalyzer._estimate_dpi: any exception falls back to None. -/
def estimateDpi (w : FsWorld) : Option Int :=
  match w.dpiRaw with
  | .ok d => d
  | .error _ => none

/-- PDFAnalyzer._is_scanned_document: any exception falls back to
False. -/
def isScannedDocument (w : FsWorld) : Bool :=
  match w.scannedRaw with
  | .ok b => b
  | .error _ => false

/-- PDFAnalyzer.analyze: `pdf_path.stat().st_size` is evaluated outside
any try/except, so its exception escapes; the remaining steps always
produce values through their fallbacks. -/
def analyzePdf (w : FsWorld) : Except String DocMetrics :=
  match w.statSize with
  | .error e => .error e
  | .ok sz =>
      let sizeMb : Rat := (sz : Rat) / (1024 * 1024)
      let pc : Int := (getPageCount w : Int)
      let dpi := estimateDpi w
      let sc := isScannedDocument w
      .ok { fileSizeMb := sizeMb, pageCount := pc, averageDpi := dpi, isScanned := sc,
            complexityScore := calculateComplexity sizeMb pc dpi sc }

/-! BoundingBox and CoordinateMapper (utils/coordinate_mapper.py). -/

/-- BoundingBox dataclass: integer geometry plus page, confidence and
label.  The dataclass places no constraint on the fields. -/
structure BBox where
  x : Int
  y : Int
  width : Int
  height : Int
  pageNumber : Int := 1
  confidence : Rat := 1
  label : Option String := none
deriving DecidableEq

/-- BoundingBox.area. -/
def BBox.area (b : BBox) : Int := b.width * b.height

/-- BoundingBox.intersection_over_union: 0 on different pages, 0 when
the clipped rectangle is inverted, else intersection divided by union
(0 when the union is non-positive).  Python's `/` on ints is float
division, modelled in ℚ. -/
def BBox.iou (a b : BBox) : Rat :=
  if a.pageNumber ≠ b.pageNumber then 0
  else
    let x1 := max a.x b.x
    let y1 := max a.y b.y
    let x2 := min (a.x + a.width) (b.x + b.width)
    let y2 := min (a.y + a.height) (b.y + b.height)
    if x2 < x1 ∨ y2 < y1 then 0
    else
      let inter : Int := (x2 - x1) * (y2 - y1)
      let uni : Rat := (a.area : Rat) + (b.area : Rat) - (inter : Rat)
      if 0 < uni then (inter : Rat) / uni else 0

/-- Stable insertion used to model Python's stable
`sorted(boxes, key=confidence, reverse=True)`: a box is placed before
the first element whose confidence is at most its own, so earlier boxes
stay ahead of equal-confidence later ones. -/
def insertByConfDesc (b : BBox) : List BBox → List BBox
  | [] => [b]
  | c :: cs => if c.confidence ≤ b.confidence then b :: c :: cs else c :: insertByConfDesc b cs

/-- `sorted(boxes, key=lambda b: b.confidence, reverse=True)` (stable
descending sort by confidence). -/
def sortByConfDesc (l : List BBox) : List BBox :=
  l.foldr insertByConfDesc []

/-- The first box of maximal confidence
(`max(boxes, key=lambda b: b.confidence)` keeps the first maximum). -/
def maxConfBox (b : BBox) (rest : List BBox) : BBox :=
  rest.foldl (fun acc c => if acc.confidence < c.confidence then c else acc) b

/-- CoordinateMapper._merge_box_group on the non-empty group
`b :: rest`: enclosing rectangle, mean confidence, label of the
highest-confidence member, page of the first member. -/
def mergeBoxGroup (b : BBox) (rest : List BBox) : BBox :=
  let boxes := b :: rest
  let minX := boxes.foldl (fun a c => min a c.x) b.x
  let minY := boxes.foldl (fun a c => min a c.y) b.y
  let maxX := boxes.foldl (fun a c => max a (c.x + c.width)) (b.x + b.width)
  let maxY := boxes.foldl (fun a c => max a (c.y + c.height)) (b.y + b.height)
  { x := minX
    y := minY
    width := maxX - minX
    height := maxY - minY
    pageNumber := b.pageNumber
    confidence := (boxes.map BBox.confidence).sum / (boxes.length : Rat)
    label := (maxConfBox b rest).label }

/-- The greedy clustering loop of merge_overlapping_boxes: the head of
the (already sorted) list seeds a group, absorbing every later
unconsumed box whose IoU with the seed reaches the threshold; a
singleton group keeps the seed itself. -/
def mergeLoop (t : Rat) : List BBox → List BBox
  | [] => []
  | b :: rest =>
      let grp := rest.filter (fun c => decide (t ≤ BBox.iou b c))
      let rem := rest.filter (fun c => !decide (t ≤ BBox.iou b c))
      (if grp.isEmpty then b else mergeBoxGroup b grp) :: mergeLoop t rem
termination_by l => l.length
decreasing_by
  simp only [List.length_cons]
  exact Nat.lt_succ_of_le (List.length_filter_le _ _)

/-- CoordinateMapper.merge_overlapping_boxes. -/
def mergeOverlappingBoxes (boxes : List BBox) (t : Rat) : List BBox :=
  if boxes.isEmpty then [] else mergeLoop t (sortByConfDesc boxes)

/-! ImageProcessor geometry (utils/image_processor.py).  Tile payloads
(PIL image, base64) do not influence the tile geometry or control flow
and are omitted from the embedding. -/

/-- Python `int(f)` on a float: truncation toward zero. -/
def truncRat (q : Rat) : Int := if 0 ≤ q then ⌊q⌋ else ⌈q⌉

/-- Python `int(math.sqrt(q))` for q ≥ 0: the integer square root of
the floor (exact for real-valued sqrt; float rounding is not
modelled). -/
def intSqrtRat (q : Rat) : Int := (Nat.sqrt (⌊q⌋).toNat : Int)

/-- Python `range(0, stop, step)` for a positive step: the multiples of
step below stop.  The engine only ever calls range with the positive
steps covered by the theorems below. -/
def pyRange (stop step : Int) : List Int :=
  (List.range ((stop + step - 1) / step).toNat).map (fun (i : Nat) => (i : Int) * step)

/-- Geometric content of a TileInfo: page-space offset, size, page and
the running index/total stamped on the tile. -/
structure TileRect where
  x : Int
  y : Int
  width : Int
  height : Int
  pageNumber : Int
  tileNumber : Nat
  totalTiles : Nat
deriving DecidableEq

/-- The region to tile (ROI fields, else the full image),
image_processor.py lines 186-194. -/
def regionDims (imageW imageH : Int) (roi : Option BBox) : Int × Int :=
  match roi with
  | some r => (r.width, r.height)
  | none => (imageW, imageH)

/-- The page-space origin of the region. -/
def regionOrigin (roi : Option BBox) : Int × Int :=
  match roi with
  | some r => (r.x, r.y)
  | none => (0, 0)

/-- One grid position of the tiling walk: clipped tile bounds, kept
only when both spans reach the minimum-fragment floor
(image_processor.py lines 228-239). -/
def gridCell (regionW regionH tileW tileH minSz x y : Int) : Option (Int × Int × Int × Int) :=
  let xEnd := min (x + tileW) regionW
  let yEnd := min (y + tileH) regionH
  if xEnd - x < minSz ∨ yEnd - y < minSz then none
  else some (x, y, xEnd, yEnd)

/-- ImageProcessor.create_tiles, geometric part.  The single-tile
special case returns the ROI itself; otherwise the grid walk with
overlap-reduced steps emits the kept cells in y-major order, numbering
them consecutively and stamping the final count. -/
def createTiles (imageW imageH : Int) (pageNumber : Int) (tileW tileH : Int)
    (overlap : Rat) (roi : Option BBox) : List TileRect :=
  let xStart := (regionOrigin roi).fst
  let yStart := (regionOrigin roi).snd
  let regionW := (regionDims imageW imageH roi).fst
  let regionH := (regionDims imageW imageH roi).snd
  if regionW ≤ tileW ∧ regionH ≤ tileH then
    [{ x := xStart, y := yStart, width := regionW, height := regionH,
       pageNumber := pageNumber, tileNumber := 0, totalTiles := 1 }]
  else
    let stepX := truncRat ((tileW : Rat) * (1 - overlap))
    let stepY := truncRat ((tileH : Rat) * (1 - overlap))
    let minSz := max (tileW / 4) (tileH / 4)
    let raw := (pyRange regionH stepY).flatMap (fun y =>
      (pyRange regionW stepX).filterMap (fun x => gridCell regionW regionH tileW tileH minSz x y))
    raw.enum.map (fun p =>
      { x := xStart + p.snd.fst, y := yStart + p.snd.snd.fst,
        width := p.snd.snd.snd.fst - p.snd.fst, height := p.snd.snd.snd.snd - p.snd.snd.fst,
        pageNumber := pageNumber, tileNumber := p.fst, totalTiles := raw.length })

/-- The uncapped tile dimensions of calculate_tile_size
(image_processor.py lines 292-308): pixel budget from the byte budget
with safety margin, height from the square root, width from the aspect
ratio. -/
def rawTileDims (imageW imageH targetBytes : Int) : Int × Int :=
  let bytesPerPixel : Rat := 7/10
  let safeTarget : Rat := (targetBytes : Rat) * (8/10)
  let maxPixels : Rat := safeTarget / bytesPerPixel
  let aspect : Rat := (imageW : Rat) / (imageH : Rat)
  let th := intSqrtRat (maxPixels / aspect)
  (truncRat ((th : Rat) * aspect), th)

/-- The 2000-pixel hard cap of calculate_tile_size (lines 310-318). -/
def cappedTileDims (imageW imageH targetBytes : Int) : Int × Int :=
  let p := rawTileDims imageW imageH targetBytes
  if 2000 < p.fst ∨ 2000 < p.snd then
    let scale : Rat := if p.snd < p.fst then 2000 / (p.fst : Rat) else 2000 / (p.snd : Rat)
    (truncRat ((p.fst : Rat) * scale), truncRat ((p.snd : Rat) * scale))
  else p

/-- ImageProcessor.calculate_tile_size.  Division by a zero image
height, a zero aspect ratio (sqrt of a division by zero), or a zero
intermediate dimension in the 500-pixel minimum rescale raises in
Python, modelled by the error branches. -/
def calculateTileSize (imageW imageH targetBytes : Int) : Except String (Int × Int) :=
  if imageH = 0 then .error "ZeroDivisionError"
  else if imageW = 0 then .error "ZeroDivisionError"
  else if (((targetBytes : Rat) * (8/10)) / (7/10)) / ((imageW : Rat) / (imageH : Rat)) < 0 then
    .error "ValueError: math domain error"
  else
    let p := cappedTileDims imageW imageH targetBytes
    if p.fst < 500 ∨ p.snd < 500 then
      if p.fst = 0 ∨ p.snd = 0 then .error "ZeroDivisionError"
      else
        let scale : Rat := max ((500 : Rat) / (p.fst : Rat)) ((500 : Rat) / (p.snd : Rat))
        .ok (truncRat ((p.fst : Rat) * scale), truncRat ((p.snd : Rat) * scale))
    else .ok p

/-! Helper lemmas. -/

/-- Characterisation of Nat.sqrt used to evaluate it on literals. -/
theorem natSqrtEq (a n : Nat) (h1 : a*a ≤ n) (h2 : n < (a+1)*(a+1)) : Nat.sqrt n = a := by
  have hle : a ≤ Nat.sqrt n := Nat.le_sqrt.mpr h1
  have hlt : Nat.sqrt n < a + 1 := by
    by_contra hc
    push_neg at hc
    have h3 : (a+1)*(a+1) ≤ Nat.sqrt n * Nat.sqrt n := Nat.mul_le_mul hc hc
    have h4 : Nat.sqrt n * Nat.sqrt n ≤ n := Nat.sqrt_le n
    omega
  omega

/-- Evaluation rule for intSqrtRat on concrete rationals. -/
theorem intSqrtRatEval (q : Rat) (n a : Nat) (hf : ⌊q⌋ = (n : Int))
    (h1 : a*a ≤ n) (h2 : n < (a+1)*(a+1)) : intSqrtRat q = (a : Int) := by
  simp only [intSqrtRat, hf, Int.toNat_natCast, natSqrtEq a n h1 h2]

/-- Each band of the complexity score is non-negative. -/
theorem sizeBand_nonneg (s : Rat) : 0 ≤ sizeBand s := by
  unfold sizeBand; split_ifs <;> norm_num

theorem pageBand_nonneg (p : Int) : 0 ≤ pageBand p := by
  unfold pageBand; split_ifs <;> norm_num

theorem dpiBand_nonneg (d : Option Int) : 0 ≤ dpiBand d := by
  cases d with
  | none => simp [dpiBand]
  | some v =>
      simp only [dpiBand]
      split_ifs <;> norm_num

theorem scanBand_nonneg (b : Bool) : 0 ≤ scanBand b := by
  unfold scanBand; split_ifs <;> norm_num

/-- Each band of the complexity score is monotone in its input. -/
theorem sizeBand_mono (s s' : Rat) (h : s ≤ s') : sizeBand s ≤ sizeBand s' := by
  unfold sizeBand
  split_ifs <;> first | (exfalso; linarith) | norm_num

theorem pageBand_mono (p p' : Int) (h : p ≤ p') : pageBand p ≤ pageBand p' := by
  unfold pageBand
  split_ifs <;> first | (exfalso; omega) | norm_num

theorem dpiBand_mono (d d' : Int) (h : d ≤ d') : dpiBand (some d) ≤ dpiBand (some d') := by
  simp only [dpiBand, bne_iff_ne, ne_eq, ite_not]
  split_ifs <;> first | (exfalso; omega) | norm_num

theorem scanBand_mono (b : Bool) : scanBand false ≤ scanBand b := by
  unfold scanBand; cases b <;> norm_num

/-! Claim C8. -/

/-- Claim C8: for every DocumentMetrics input, the computed
complexity_score lies in [0,1] and is monotonically non-decreasing in
file size, page count, DPI, and the scanned flag separately. -/
theorem claim8_complexity_bounds_and_monotone :
    (∀ s p d sc, 0 ≤ calculateComplexity s p d sc ∧ calculateComplexity s p d sc ≤ 1) ∧
    (∀ s s' p d sc, s ≤ s' → calculateComplexity s p d sc ≤ calculateComplexity s' p d sc) ∧
    (∀ s p p' d sc, p ≤ p' → calculateComplexity s p d sc ≤ calculateComplexity s p' d sc) ∧
    (∀ s p d d' sc, d ≤ d' →
      calculateComplexity s p (some d) sc ≤ calculateComplexity s p (some d') sc) ∧
    (∀ s p d, calculateComplexity s p d false ≤ calculateComplexity s p d true) := by
  refine ⟨?_, ?_, ?_, ?_, ?_⟩
  · intro s p d sc
    refine ⟨le_min ?_ (by norm_num), min_le_right _ _⟩
    have h1 := sizeBand_nonneg s
    have h2 := pageBand_nonneg p
    have h3 := dpiBand_nonneg d
    have h4 := scanBand_nonneg sc
    linarith
  · intro s s' p d sc h
    exact min_le_min (by have := sizeBand_mono s s' h; linarith) le_rfl
  · intro s p p' d sc h
    exact min_le_min (by have := pageBand_mono p p' h; linarith) le_rfl
  · intro s p d d' sc h
    exact min_le_min (by have := dpiBand_mono d d' h; linarith) le_rfl
  · intro s p d
    exact min_le_min (by have := scanBand_mono true; linarith) le_rfl

/-- Witness for C8 at concrete metrics. -/
theorem claim8_witness :
    (0 ≤ calculateComplexity 3 2 none false ∧ calculateComplexity 3 2 none false ≤ 1) ∧
    calculateComplexity 3 2 none false ≤ calculateComplexity 30 2 none false ∧
    calculateComplexity 3 2 none false ≤ calculateComplexity 3 40 none false ∧
    calculateComplexity 3 2 (some 100) false ≤ calculateComplexity 3 2 (some 300) false ∧
    calculateComplexity 3 2 none false ≤ calculateComplexity 3 2 none true :=
  ⟨claim8_complexity_bounds_and_monotone.1 3 2 none false,
   claim8_complexity_bounds_and_monotone.2.1 3 30 2 none false (by norm_num),
   claim8_complexity_bounds_and_monotone.2.2.1 3 2 40 none false (by norm_num),
   claim8_complexity_bounds_and_monotone.2.2.2.1 3 2 100 300 false (by norm_num),
   claim8_complexity_bounds_and_monotone.2.2.2.2 3 2 none⟩

/-! Claim C10. -/

/-- Claim C10: alias lookup in the bid-item normalizer uses truthiness
rather than key presence.  A quantity of 0 (or 0.0) with no qty/amount
alias normalizes to None, and an empty-string item_number falls through
to the number/id aliases. -/
theorem claim10_alias_truthiness :
    (∀ item : List (String × PyVal),
      (pyGet item "quantity" = .pyint 0 ∨ pyGet item "quantity" = .pyfloat 0) →
      pyGet item "qty" = .pynone →
      pyGet item "amount" = .pynone →
      pyGet (normalizeBidItem item) "quantity" = .pynone) ∧
    (∀ item : List (String × PyVal),
      pyGet item "item_number" = .pystr "" →
      pyGet (normalizeBidItem item) "item_number" =
        normalizeString (pyOr (pyGet item "number") (pyGet item "id"))) := by
  constructor
  · intro item hq hqty ham
    have hred : pyGet (normalizeBidItem item) "quantity"
        = normalizeNumber (pyOr (pyGet item "quantity") (pyOr (pyGet item "qty") (pyGet item "amount"))) := rfl
    rw [hred, hqty, ham]
    rcases hq with h | h <;> rw [h] <;> simp [pyOr, pyTruthy, normalizeNumber]
  · intro item hin
    have hred : pyGet (normalizeBidItem item) "item_number"
        = normalizeString (pyOr (pyGet item "item_number") (pyOr (pyGet item "number") (pyGet item "id"))) := rfl
    rw [hred, hin]
    have hor : pyOr (.pystr "") (pyOr (pyGet item "number") (pyGet item "id"))
        = pyOr (pyGet item "number") (pyGet item "id") := by
      simp [pyOr, pyTruthy]
    rw [hor]

/-- Witness for C10 on concrete bid items. -/
theorem claim10_witness :
    pyGet (normalizeBidItem [("item_number", .pystr "7"), ("quantity", .pyint 0)]) "quantity" = .pynone ∧
    pyGet (normalizeBidItem [("item_number", .pystr ""), ("number", .pystr "n7")]) "item_number" = .pystr "n7" := by
  constructor
  · exact claim10_alias_truthiness.1 _ (Or.inl rfl) rfl rfl
  · rw [claim10_alias_truthiness.2 [("item_number", .pystr ""), ("number", .pystr "n7")] rfl]
    rfl

/-! Claim C4. -/

/-- A world in which the path does not exist: `pdf_path.stat()` raises
FileNotFoundError before any of the guarded steps run. -/
def fsMissingFile : FsWorld :=
  { statSize := .error "FileNotFoundError"
    pageCountRaw := .ok 1
    dpiRaw := .ok none
    scannedRaw := .ok false }

/-- Counterexample to C4 as stated: analyze propagates the stat
exception instead of returning a DocumentMetrics, because the file-size
step is the one introspection step outside any try/except. -/
theorem claim4_counterexample :
    analyzePdf fsMissingFile = .error "FileNotFoundError" := rfl

/-- Claim C4 (amended): once the initial stat succeeds, analyze always
returns a DocumentMetrics — each guarded introspection step (page
count, DPI estimation, scanned detection) falls back to its safe
default (1, None, False) on failure. -/
theorem claim4_analyze_total_after_stat :
    (∀ w : FsWorld, ∀ sz, w.statSize = .ok sz → ∃ m, analyzePdf w = .ok m) ∧
    (∀ w : FsWorld, ∀ e, w.pageCountRaw = .error e → getPageCount w = 1) ∧
    (∀ w : FsWorld, ∀ e, w.dpiRaw = .error e → estimateDpi w = none) ∧
    (∀ w : FsWorld, ∀ e, w.scannedRaw = .error e → isScannedDocument w = false) := by
  refine ⟨?_, ?_, ?_, ?_⟩
  · intro w sz h
    unfold analyzePdf
    rw [h]
    exact ⟨_, rfl⟩
  · intro w e h; unfold getPageCount; rw [h]
  · intro w e h; unfold estimateDpi; rw [h]
  · intro w e h; unfold isScannedDocument; rw [h]

/-- A world in which every guarded step fails but stat succeeds. -/
def fsGuardedFailures : FsWorld :=
  { statSize := .ok 1048576
    pageCountRaw := .error "PdfReadError"
    dpiRaw := .error "PDFPageCountError"
    scannedRaw := .error "PdfReadError" }

/-- Witness for C4 (amended): with the stat succeeding and every other
step failing, analyze returns a metrics value built from the safe
defaults. -/
theorem claim4_witness :
    (∃ m, analyzePdf fsGuardedFailures = .ok m) ∧
    getPageCount fsGuardedFailures = 1 ∧
    estimateDpi fsGuardedFailures = none ∧
    isScannedDocument fsGuardedFailures = false :=
  ⟨claim4_analyze_total_after_stat.1 fsGuardedFailures 1048576 rfl,
   claim4_analyze_total_after_stat.2.1 fsGuardedFailures "PdfReadError" rfl,
   claim4_analyze_total_after_stat.2.2.1 fsGuardedFailures "PDFPageCountError" rfl,
   claim4_analyze_total_after_stat.2.2.2 fsGuardedFailures "PdfReadError" rfl⟩

/-! Claim C5. -/

/-- Counterexample to C5 as stated: a degenerate (zero-area) box has
IoU 0 with itself, not 1, because the `union > 0` guard sends it to the
0.0 branch. -/
theorem claim5_counterexample :
    BBox.iou ⟨0, 0, 0, 0, 1, 1, none⟩ ⟨0, 0, 0, 0, 1, 1, none⟩ = 0 ∧
    BBox.iou ⟨0, 0, 0, 0, 1, 1, none⟩ ⟨0, 0, 0, 0, 1, 1, none⟩ ≠ 1 := by
  constructor
  · norm_num [BBox.iou, BBox.area]
  · norm_num [BBox.iou, BBox.area]

/-- Claim C5 (amended): IoU is symmetric; it is 0 whenever the pages
differ or the clipped rectangles have empty overlap; and IoU(a,a) = 1
for every box of positive width and height (a zero-area box yields 0
instead). -/
theorem claim5_iou_properties :
    (∀ a b : BBox, BBox.iou a b = BBox.iou b a) ∧
    (∀ a b : BBox, a.pageNumber ≠ b.pageNumber → BBox.iou a b = 0) ∧
    (∀ a b : BBox,
      (min (a.x + a.width) (b.x + b.width) ≤ max a.x b.x ∨
       min (a.y + a.height) (b.y + b.height) ≤ max a.y b.y) →
      BBox.iou a b = 0) ∧
    (∀ a : BBox, 0 < a.width → 0 < a.height → BBox.iou a a = 1) := by
  refine ⟨?_, ?_, ?_, ?_⟩
  · intro a b
    by_cases hp : a.pageNumber = b.pageNumber
    · simp only [BBox.iou, hp, ne_eq, not_true_eq_false, if_false,
        max_comm b.x a.x, max_comm b.y a.y,
        min_comm (b.x + b.width) (a.x + a.width), min_comm (b.y + b.height) (a.y + a.height)]
      have harea : (a.area : Rat) + (b.area : Rat) = (b.area : Rat) + (a.area : Rat) := by ring
      rw [harea]
    · simp [BBox.iou, hp, Ne.symm hp]
  · intro a b hp
    simp [BBox.iou, hp]
  · intro a b hover
    unfold BBox.iou
    by_cases hp : a.pageNumber ≠ b.pageNumber
    · simp [hp]
    · simp only [hp, if_false]
      split_ifs with hc hu
      · rfl
      · push_neg at hc
        have hinter : (min (a.x + a.width) (b.x + b.width) - max a.x b.x) *
            (min (a.y + a.height) (b.y + b.height) - max a.y b.y) = 0 := by
          rcases hover with h | h
          · have hz : min (a.x + a.width) (b.x + b.width) - max a.x b.x = 0 := by omega
            rw [hz, zero_mul]
          · have hz : min (a.y + a.height) (b.y + b.height) - max a.y b.y = 0 := by omega
            rw [hz, mul_zero]
        rw [hinter]
        norm_num
      · rfl
  · intro a hw hh
    unfold BBox.iou
    simp only [ne_eq, not_true_eq_false, if_false, max_self, min_self]
    have hx : ¬ (a.x + a.width < a.x ∨ a.y + a.height < a.y) := by omega
    simp only [hx, if_false]
    have h1 : a.x + a.width - a.x = a.width := by ring
    have h2 : a.y + a.height - a.y = a.height := by ring
    rw [h1, h2]
    have harea : (a.area : Rat) + (a.area : Rat) - ((a.width * a.height : Int) : Rat)
        = ((a.width * a.height : Int) : Rat) := by
      unfold BBox.area
      push_cast
      ring
    rw [harea]
    have hpos : (0 : Rat) < ((a.width * a.height : Int) : Rat) := by
      have : (0 : Int) < a.width * a.height := mul_pos hw hh
      exact_mod_cast this
    rw [if_pos hpos]
    exact div_self (ne_of_gt hpos)

/-- Witness for C5 (amended) on concrete boxes. -/
theorem claim5_witness :
    BBox.iou ⟨0, 0, 4, 4, 1, 1, none⟩ ⟨2, 0, 4, 4, 1, 1, none⟩
      = BBox.iou ⟨2, 0, 4, 4, 1, 1, none⟩ ⟨0, 0, 4, 4, 1, 1, none⟩ ∧
    BBox.iou ⟨0, 0, 4, 4, 1, 1, none⟩ ⟨0, 0, 4, 4, 2, 1, none⟩ = 0 ∧
    BBox.iou ⟨0, 0, 4, 4, 1, 1, none⟩ ⟨4, 0, 4, 4, 1, 1, none⟩ = 0 ∧
    BBox.iou ⟨0, 0, 4, 4, 1, 1, none⟩ ⟨0, 0, 4, 4, 1, 1, none⟩ = 1 :=
  ⟨claim5_iou_properties.1 _ _,
   claim5_iou_properties.2.1 _ _ (by decide),
   claim5_iou_properties.2.2.1 _ _ (by left; decide),
   claim5_iou_properties.2.2.2 _ (by decide) (by decide)⟩

/-! Claim C9. -/

/-- truncRat coincides with the floor on non-negative arguments. -/
theorem truncRat_of_nonneg (q : Rat) (h : 0 ≤ q) : truncRat q = ⌊q⌋ := by
  simp [truncRat, h]

/-- Both uncapped tile dimensions are non-negative for positive
inputs. -/
theorem rawTileDims_nonneg (w h tb : Int) (hw : 0 < w) (hh : 0 < h) :
    0 ≤ (rawTileDims w h tb).fst ∧ 0 ≤ (rawTileDims w h tb).snd := by
  simp only [rawTileDims]
  constructor
  · have haspect : (0 : Rat) ≤ (w : Rat) / (h : Rat) := by
      apply div_nonneg <;> [exact_mod_cast hw.le; exact_mod_cast hh.le]
    have hsq : (0 : Int) ≤ intSqrtRat ((tb : Rat) * (8/10) / (7/10) / ((w : Rat) / (h : Rat))) := by
      unfold intSqrtRat
      exact Int.natCast_nonneg _
    have hprod : (0 : Rat) ≤ ((intSqrtRat ((tb : Rat) * (8/10) / (7/10) / ((w : Rat) / (h : Rat))) : Int) : Rat) * ((w : Rat) / (h : Rat)) := by
      apply mul_nonneg _ haspect
      exact_mod_cast hsq
    rw [truncRat_of_nonneg _ hprod]
    exact Int.floor_nonneg.mpr hprod
  · unfold intSqrtRat
    exact Int.natCast_nonneg _

/-- Bounds for one dimension after the cap rescale: scaling a
non-negative dimension by 2000 over a larger positive divisor lands in
[0, 2000]. -/
theorem capScaleBounds (z divi : Int) (hz : 0 ≤ z) (hzle : z ≤ divi) (hd : 2000 < divi) :
    0 ≤ truncRat ((z : Rat) * (2000 / (divi : Rat))) ∧
    truncRat ((z : Rat) * (2000 / (divi : Rat))) ≤ 2000 := by
  have hdQ : (0 : Rat) < (divi : Rat) := by exact_mod_cast lt_trans (by norm_num) hd
  have hzQ : (0 : Rat) ≤ (z : Rat) := by exact_mod_cast hz
  have hzleQ : (z : Rat) ≤ (divi : Rat) := by exact_mod_cast hzle
  have hmul_nonneg : (0 : Rat) ≤ (z : Rat) * (2000 / (divi : Rat)) := by positivity
  rw [truncRat_of_nonneg _ hmul_nonneg]
  refine ⟨Int.floor_nonneg.mpr hmul_nonneg, ?_⟩
  have hle : (z : Rat) * (2000 / (divi : Rat)) ≤ 2000 := by
    rw [mul_div_assoc']
    rw [div_le_iff₀ hdQ]
    nlinarith
  calc ⌊(z : Rat) * (2000 / (divi : Rat))⌋ ≤ ⌊(2000 : Rat)⌋ := Int.floor_le_floor hle
    _ = 2000 := by norm_num

/-- After the 2000-pixel cap both dimensions are non-negative and at
most 2000 (for positive inputs). -/
theorem cappedTileDims_bounds (w h tb : Int) (hw : 0 < w) (hh : 0 < h) :
    0 ≤ (cappedTileDims w h tb).fst ∧ 0 ≤ (cappedTileDims w h tb).snd ∧
    (cappedTileDims w h tb).fst ≤ 2000 ∧ (cappedTileDims w h tb).snd ≤ 2000 := by
  obtain ⟨h1, h2⟩ := rawTileDims_nonneg w h tb hw hh
  simp only [cappedTileDims]
  set p := rawTileDims w h tb with hp
  split_ifs with hcap hlt
  · have hd : 2000 < p.fst := by omega
    obtain ⟨k1, k2⟩ := capScaleBounds p.fst p.fst h1 le_rfl hd
    obtain ⟨k3, k4⟩ := capScaleBounds p.snd p.fst h2 (by omega) hd
    exact ⟨k1, k3, k2, k4⟩
  · have hd : 2000 < p.snd := by omega
    obtain ⟨k1, k2⟩ := capScaleBounds p.fst p.snd h1 (by omega) hd
    obtain ⟨k3, k4⟩ := capScaleBounds p.snd p.snd h2 le_rfl hd
    exact ⟨k1, k3, k2, k4⟩
  · push_neg at hcap
    exact ⟨h1, h2, hcap.1, hcap.2⟩

/-- Counterexample to C9 as stated: a 20:1 aspect-ratio image at the
default byte budget.  The cap first yields 2000 by 100, then the
500-pixel minimum rescale multiplies both dimensions by 5, returning a
width of 10000 — far above the hard maximum of 2000. -/
theorem claim9_counterexample :
    calculateTileSize 1000 50 4718592 = .ok (10000, 500) ∧ ¬ ((10000 : Int) ≤ 2000) := by
  have hraw : rawTileDims 1000 50 4718592 = (10380, 519) := by
    have ha : (((1000 : Int)) : Rat) / (((50 : Int)) : Rat) = 20 := by norm_num
    have hmp : (((4718592 : Int)) : Rat) * (8/10) / (7/10) / 20 = 9437184/35 := by norm_num
    have hsq : intSqrtRat (9437184/35) = (519 : Int) :=
      intSqrtRatEval _ 269633 519 (by norm_num) (by norm_num) (by norm_num)
    have htr : truncRat (((519 : Int) : Rat) * 20) = 10380 := by norm_num [truncRat]
    simp only [rawTileDims, ha, hmp, hsq, htr]
  have hcap : cappedTileDims 1000 50 4718592 = (2000, 100) := by
    simp only [cappedTileDims, hraw]
    norm_num [truncRat]
  constructor
  · simp only [calculateTileSize, hcap]
    norm_num [truncRat, max_def]
  · decide

/-- Claim C9 (amended): for positive inputs every successful result has
both dimensions at least 500; and whenever the aspect-capped dimensions
are already at least 500 (so the minimum rescale is not needed) the
result is exactly those capped dimensions, which also respect the
2000-pixel hard maximum.  When the minimum rescale fires it preserves
the 500 floor but can push the larger dimension past 2000. -/
theorem claim9_tile_size_bounds :
    (∀ w h tb tw th : Int, 0 < w → 0 < h → 0 < tb →
      calculateTileSize w h tb = .ok (tw, th) → 500 ≤ tw ∧ 500 ≤ th) ∧
    (∀ w h tb : Int, 0 < w → 0 < h → 0 < tb →
      500 ≤ (cappedTileDims w h tb).fst → 500 ≤ (cappedTileDims w h tb).snd →
      calculateTileSize w h tb = .ok (cappedTileDims w h tb) ∧
      (cappedTileDims w h tb).fst ≤ 2000 ∧ (cappedTileDims w h tb).snd ≤ 2000) := by
  have hguards : ∀ w h tb : Int, 0 < w → 0 < h → 0 < tb →
      ¬ ((tb : Rat) * (8/10) / (7/10) / ((w : Rat) / (h : Rat)) < 0) := by
    intro w h tb hw hh htb
    push_neg
    have hwq : (0 : Rat) < (w : Rat) := by exact_mod_cast hw
    have hhq : (0 : Rat) < (h : Rat) := by exact_mod_cast hh
    have htbq : (0 : Rat) < (tb : Rat) := by exact_mod_cast htb
    positivity
  constructor
  · intro w h tb tw th hw hh htb hok
    obtain ⟨hc1, hc2, _, _⟩ := cappedTileDims_bounds w h tb hw hh
    unfold calculateTileSize at hok
    rw [if_neg (by omega), if_neg (by omega), if_neg (hguards w h tb hw hh htb)] at hok
    set p := cappedTileDims w h tb with hp
    by_cases hmin : p.fst < 500 ∨ p.snd < 500
    · rw [if_pos hmin] at hok
      by_cases hz : p.fst = 0 ∨ p.snd = 0
      · rw [if_pos hz] at hok
        exact absurd hok (by simp)
      · rw [if_neg hz] at hok
        push_neg at hz
        have hfpos : (0 : Rat) < (p.fst : Rat) := by
          have : (0 : Int) < p.fst := lt_of_le_of_ne hc1 (Ne.symm hz.1)
          exact_mod_cast this
        have hspos : (0 : Rat) < (p.snd : Rat) := by
          have : (0 : Int) < p.snd := lt_of_le_of_ne hc2 (Ne.symm hz.2)
          exact_mod_cast this
        set scale : Rat := max ((500 : Rat) / (p.fst : Rat)) ((500 : Rat) / (p.snd : Rat)) with hscale
        have key : ∀ z : Rat, 0 < z → (500 : Rat) / z ≤ scale → 500 ≤ truncRat (z * scale) := by
          intro z hzpos hle
          have h500 : (500 : Rat) ≤ z * scale := by
            have := mul_le_mul_of_nonneg_left hle hzpos.le
            rwa [mul_div_cancel₀ _ (ne_of_gt hzpos)] at this
          have hnn : (0 : Rat) ≤ z * scale := by linarith
          rw [truncRat_of_nonneg _ hnn]
          have : ((500 : Int) : Rat) ≤ z * scale := by exact_mod_cast h500
          exact Int.le_floor.mpr this
        have r1 := key (p.fst : Rat) hfpos (le_max_left _ _)
        have r2 := key (p.snd : Rat) hspos (le_max_right _ _)
        simp only [Except.ok.injEq, Prod.mk.injEq] at hok
        obtain ⟨e1, e2⟩ := hok
        exact ⟨e1 ▸ r1, e2 ▸ r2⟩
    · rw [if_neg hmin] at hok
      push_neg at hmin
      simp only [Except.ok.injEq] at hok
      have e1 : p.fst = tw := by rw [hok]
      have e2 : p.snd = th := by rw [hok]
      exact ⟨e1 ▸ hmin.1, e2 ▸ hmin.2⟩
  · intro w h tb hw hh htb hc1 hc2
    obtain ⟨_, _, hle1, hle2⟩ := cappedTileDims_bounds w h tb hw hh
    refine ⟨?_, hle1, hle2⟩
    unfold calculateTileSize
    rw [if_neg (by omega), if_neg (by omega), if_neg (hguards w h tb hw hh htb), if_neg (by omega)]

/-- Witness for C9 (amended): a square image stays at the 2000-pixel
cap and within both bounds. -/
theorem claim9_witness :
    (500 ≤ (2000 : Int) ∧ 500 ≤ (2000 : Int)) ∧
    calculateTileSize 1000 1000 4718592 = .ok (cappedTileDims 1000 1000 4718592) ∧
    (cappedTileDims 1000 1000 4718592).fst ≤ 2000 ∧
    (cappedTileDims 1000 1000 4718592).snd ≤ 2000 := by
  have hraw : rawTileDims 1000 1000 4718592 = (2322, 2322) := by
    have ha : (((1000 : Int)) : Rat) / (((1000 : Int)) : Rat) = 1 := by norm_num
    have hmp : (((4718592 : Int)) : Rat) * (8/10) / (7/10) / 1 = 37748736/7 := by norm_num
    have hsq : intSqrtRat (37748736/7) = (2322 : Int) :=
      intSqrtRatEval _ 5392676 2322 (by norm_num) (by norm_num) (by norm_num)
    have htr : truncRat (((2322 : Int) : Rat) * 1) = 2322 := by norm_num [truncRat]
    simp only [rawTileDims, ha, hmp, hsq, htr]
  have hcap : cappedTileDims 1000 1000 4718592 = (2000, 2000) := by
    simp only [cappedTileDims, hraw]
    norm_num [truncRat]
  have h500a : 500 ≤ (cappedTileDims 1000 1000 4718592).fst := by rw [hcap]; decide
  have h500b : 500 ≤ (cappedTileDims 1000 1000 4718592).snd := by rw [hcap]; decide
  obtain ⟨hok, hb1, hb2⟩ := claim9_tile_size_bounds.2 1000 1000 4718592
    (by decide) (by decide) (by decide) h500a h500b
  exact ⟨⟨by decide, by decide⟩, hok, hb1, hb2⟩

/-! Claim C6. -/

/-- Counterexample to C6 as stated: three unit-confidence boxes in a
vertical chain at threshold 0.01.  The greedy pass absorbs only boxes
overlapping the seed, leaving two boxes whose merged extents now
overlap above the threshold, so a second application merges again. -/
theorem claim6_counterexample :
    (mergeOverlappingBoxes
      [⟨0, 0, 10, 10, 1, 1, none⟩, ⟨0, 9, 10, 10, 1, 1, none⟩, ⟨0, 18, 10, 10, 1, 1, none⟩]
      (1/100)).length = 2 ∧
    (mergeOverlappingBoxes
      (mergeOverlappingBoxes
        [⟨0, 0, 10, 10, 1, 1, none⟩, ⟨0, 9, 10, 10, 1, 1, none⟩, ⟨0, 18, 10, 10, 1, 1, none⟩]
        (1/100))
      (1/100)).length = 1 := by
  have hinner : mergeOverlappingBoxes
      [⟨0, 0, 10, 10, 1, 1, none⟩, ⟨0, 9, 10, 10, 1, 1, none⟩, ⟨0, 18, 10, 10, 1, 1, none⟩]
      (1/100) = [⟨0, 0, 10, 19, 1, 1, none⟩, ⟨0, 18, 10, 10, 1, 1, none⟩] := by
    norm_num [mergeOverlappingBoxes, mergeLoop, sortByConfDesc, insertByConfDesc,
      mergeBoxGroup, maxConfBox, BBox.iou, BBox.area]
  rw [hinner]
  constructor
  · norm_num
  · norm_num [mergeOverlappingBoxes, mergeLoop, sortByConfDesc, insertByConfDesc,
      mergeBoxGroup, maxConfBox, BBox.iou, BBox.area]

/-- The stable descending insertion leaves a descending-sorted list
unchanged. -/
theorem sortByConfDesc_of_sorted (l : List BBox)
    (h : l.Pairwise (fun a b => b.confidence ≤ a.confidence)) :
    sortByConfDesc l = l := by
  induction l with
  | nil => rfl
  | cons b rest ih =>
      have htail := (List.pairwise_cons.mp h).2
      have hhead := (List.pairwise_cons.mp h).1
      have hrest : sortByConfDesc rest = rest := ih htail
      show insertByConfDesc b (sortByConfDesc rest) = b :: rest
      rw [hrest]
      cases rest with
      | nil => rfl
      | cons c cs =>
          have hc : c.confidence ≤ b.confidence := hhead c (by simp)
          simp [insertByConfDesc, hc]

/-- The greedy loop leaves a list unchanged when no later box reaches
the threshold with any earlier box. -/
theorem mergeLoop_of_separated (t : Rat) (l : List BBox)
    (h : l.Pairwise (fun a b => BBox.iou a b < t)) :
    mergeLoop t l = l := by
  induction l with
  | nil => simp [mergeLoop]
  | cons b rest ih =>
      have hhead := (List.pairwise_cons.mp h).1
      have htail := (List.pairwise_cons.mp h).2
      have hgrp : rest.filter (fun c => decide (t ≤ BBox.iou b c)) = [] := by
        rw [List.filter_eq_nil_iff]
        intro c hc
        simp only [decide_eq_true_eq]
        push_neg
        exact hhead c hc
      have hrem : rest.filter (fun c => !decide (t ≤ BBox.iou b c)) = rest := by
        rw [List.filter_eq_self]
        intro c hc
        simp only [Bool.not_eq_true', decide_eq_false_iff_not]
        push_neg
        exact hhead c hc
      simp only [mergeLoop, hgrp, hrem, List.isEmpty_nil, if_true]
      rw [ih htail]

/-- Claim C6 (amended): merge_overlapping_boxes returns its input
unchanged whenever the input is sorted by non-increasing confidence and
every ordered pair of boxes falls below the IoU threshold; since one
pass can produce boxes that again overlap above the threshold, a second
application may merge further and the function is not idempotent in
general. -/
theorem claim6_merge_separated_fixed (t : Rat) (l : List BBox)
    (hsorted : l.Pairwise (fun a b => b.confidence ≤ a.confidence))
    (hsep : l.Pairwise (fun a b => BBox.iou a b < t)) :
    mergeOverlappingBoxes l t = l := by
  unfold mergeOverlappingBoxes
  cases l with
  | nil => simp
  | cons b rest =>
      rw [if_neg (by simp)]
      rw [sortByConfDesc_of_sorted _ hsorted, mergeLoop_of_separated t _ hsep]

/-- Witness for C6 (amended) on two disjoint boxes. -/
theorem claim6_witness :
    mergeOverlappingBoxes [⟨0, 0, 4, 4, 1, 1, none⟩, ⟨100, 0, 4, 4, 1, 1/2, none⟩] (1/2)
      = [⟨0, 0, 4, 4, 1, 1, none⟩, ⟨100, 0, 4, 4, 1, 1/2, none⟩] :=
  claim6_merge_separated_fixed (1/2) _
    (by norm_num [List.pairwise_cons])
    (by norm_num [List.pairwise_cons, BBox.iou, BBox.area])

/-! Claim C2. -/

/-- A successful _normalize_bid_items result is always a list. -/
theorem normalizeBidItems_ok_shape (itms bi : PyVal) (h : normalizeBidItems itms = .ok bi) :
    ∃ l, bi = .pylist l := by
  unfold normalizeBidItems at h
  cases hpi : pyIter itms with
  | error e => rw [hpi] at h; exact absurd h (by simp)
  | ok l => rw [hpi] at h; simp only [Except.ok.injEq] at h; exact ⟨_, h.symm⟩

/-- A successful _normalize_specifications result is always a list. -/
theorem normalizeSpecifications_ok_shape (sp v : PyVal) (h : normalizeSpecifications sp = .ok v) :
    ∃ l, v = .pylist l := by
  unfold normalizeSpecifications at h
  cases hpi : pyIter sp with
  | error e => rw [hpi] at h; exact absurd h (by simp)
  | ok l => rw [hpi] at h; simp only [Except.ok.injEq] at h; exact ⟨_, h.symm⟩

/-- A successful _normalize_materials result is always a list. -/
theorem normalizeMaterials_ok_shape (mv v : PyVal) (h : normalizeMaterials mv = .ok v) :
    ∃ l, v = .pylist l := by
  unfold normalizeMaterials at h
  cases hpi : pyIter mv with
  | error e => rw [hpi] at h; exact absurd h (by simp)
  | ok l => rw [hpi] at h; simp only [Except.ok.injEq] at h; exact ⟨_, h.symm⟩

/-- Whatever normalize returns without raising conforms to the
canonical schema (validate_schema accepts it). -/
theorem normalizeE_validates (v nd : PyVal) (h : normalizeE v = .ok nd) :
    validateSchema nd = true := by
  unfold normalizeE at h
  by_cases ht : pyTruthy v
  · rw [if_neg (by simp [ht])] at h
    cases v with
    | pydict d =>
        dsimp only at h
        cases hbi : normalizeBidItems (pyGetD d "bid_items" (.pylist [])) with
        | error e => rw [hbi] at h; exact absurd h (by simp)
        | ok bi =>
            rw [hbi] at h
            dsimp only at h
            cases hsp : normalizeSpecifications (pyGetD d "specifications" (.pylist [])) with
            | error e => rw [hsp] at h; exact absurd h (by simp)
            | ok sp =>
                rw [hsp] at h
                dsimp only at h
                cases hmat : normalizeMaterials (pyGetD d "materials" (.pylist [])) with
                | error e => rw [hmat] at h; exact absurd h (by simp)
                | ok mat =>
                    rw [hmat] at h
                    dsimp only at h
                    obtain ⟨lb, rfl⟩ := normalizeBidItems_ok_shape _ _ hbi
                    obtain ⟨ls, rfl⟩ := normalizeSpecifications_ok_shape _ _ hsp
                    obtain ⟨lm, rfl⟩ := normalizeMaterials_ok_shape _ _ hmat
                    cases hraw : d.find? (fun kv => kv.fst == "raw_text") with
                    | some kv =>
                        rw [hraw] at h
                        simp only [Except.ok.injEq] at h
                        rw [← h]
                        rfl
                    | none =>
                        rw [hraw] at h
                        simp only [Except.ok.injEq] at h
                        rw [← h]
                        rfl
    | pynone => exact absurd h (by simp)
    | pybool b => exact absurd h (by simp)
    | pyint n => exact absurd h (by simp)
    | pyfloat q => exact absurd h (by simp)
    | pystr s => exact absurd h (by simp)
    | pylist l => exact absurd h (by simp)
  · rw [if_pos (by simp [ht])] at h
    simp only [Except.ok.injEq] at h
    rw [← h]
    rfl

/-- Step equation of the strategy loop: a raised exception is recorded
and the loop continues. -/
theorem runChainAux_cons_exn (nm m : String) (rest : List StratEntry) (errs : List String) :
    runChainAux ((nm, .exn m) :: rest) errs =
      ((runChainAux rest (errs ++ [nm ++ " exception: " ++ m])).fst,
       nm :: (runChainAux rest (errs ++ [nm ++ " exception: " ++ m])).snd) := rfl

/-- Step equation: a strategy returning success=false is recorded and
the loop continues. -/
theorem runChainAux_cons_fail (nm : String) (r : ParseResultM) (rest : List StratEntry)
    (errs : List String) (h : r.success = false) :
    runChainAux ((nm, .ok r) :: rest) errs =
      ((runChainAux rest (errs ++ [nm ++ " failed: " ++ optErrStr r.error])).fst,
       nm :: (runChainAux rest (errs ++ [nm ++ " failed: " ++ optErrStr r.error])).snd) := by
  simp only [runChainAux]
  rw [if_neg (by simp [h])]

/-- Step equation: a success with no data is returned as is. -/
theorem runChainAux_cons_none (nm : String) (r : ParseResultM) (rest : List StratEntry)
    (errs : List String) (h : r.success = true) (hd : r.data = none) :
    runChainAux ((nm, .ok r) :: rest) errs = (r, [nm]) := by
  simp only [runChainAux]
  rw [if_pos h, hd]

/-- Step equation: a success with falsy data skips normalization and is
returned as is. -/
theorem runChainAux_cons_falsy (nm : String) (r : ParseResultM) (d : PyVal)
    (rest : List StratEntry) (errs : List String)
    (h : r.success = true) (hd : r.data = some d) (ht : pyTruthy d = false) :
    runChainAux ((nm, .ok r) :: rest) errs = (r, [nm]) := by
  simp only [runChainAux]
  rw [if_pos h, hd]
  dsimp only
  rw [if_neg (by simp [ht])]

/-- Step equation: a success with truthy data that normalizes is
returned with its data replaced by the normalized value. -/
theorem runChainAux_cons_norm (nm : String) (r : ParseResultM) (d nd : PyVal)
    (rest : List StratEntry) (errs : List String)
    (h : r.success = true) (hd : r.data = some d) (ht : pyTruthy d = true)
    (hn : normalizeE d = .ok nd) :
    runChainAux ((nm, .ok r) :: rest) errs = ({ r with data := some nd }, [nm]) := by
  simp only [runChainAux]
  rw [if_pos h, hd]
  dsimp only
  rw [if_pos ht, hn]

/-- Step equation: a success whose data raises inside normalize is
caught by the same except and the loop continues. -/
theorem runChainAux_cons_normfail (nm : String) (r : ParseResultM) (d : PyVal) (m : String)
    (rest : List StratEntry) (errs : List String)
    (h : r.success = true) (hd : r.data = some d) (ht : pyTruthy d = true)
    (hn : normalizeE d = .error m) :
    runChainAux ((nm, .ok r) :: rest) errs =
      ((runChainAux rest (errs ++ [nm ++ " exception: " ++ m])).fst,
       nm :: (runChainAux rest (errs ++ [nm ++ " exception: " ++ m])).snd) := by
  simp only [runChainAux]
  rw [if_pos h, hd]
  dsimp only
  rw [if_pos ht, hn]

/-- The ParseResult invariant along the strategy loop: a failed final
result carries no data and an error; a returned success whose data is
truthy carries schema-conforming data. -/
theorem runChainAux_invariant (chain : List StratEntry) : ∀ errs : List String,
    ((runChainAux chain errs).fst.success = false →
      (runChainAux chain errs).fst.data = none ∧
      ((runChainAux chain errs).fst.error).isSome = true) ∧
    ((runChainAux chain errs).fst.success = true →
      ∀ d, (runChainAux chain errs).fst.data = some d → pyTruthy d = true →
        validateSchema d = true) := by
  induction chain with
  | nil =>
      intro errs
      refine ⟨fun _ => ⟨rfl, rfl⟩, fun hs => ?_⟩
      exact absurd hs (by simp [runChainAux, allFailedResult])
  | cons s rest ih =>
      intro errs
      obtain ⟨nm, o⟩ := s
      cases o with
      | exn m =>
          rw [runChainAux_cons_exn]
          exact ih (errs ++ [nm ++ " exception: " ++ m])
      | ok r =>
          cases hs : r.success with
          | false =>
              rw [runChainAux_cons_fail nm r rest errs hs]
              exact ih (errs ++ [nm ++ " failed: " ++ optErrStr r.error])
          | true =>
              cases hd : r.data with
              | none =>
                  rw [runChainAux_cons_none nm r rest errs hs hd]
                  constructor
                  · intro hfail
                    rw [hs] at hfail
                    exact Bool.noConfusion hfail
                  · intro _ d' hd' _
                    rw [hd] at hd'
                    exact absurd hd' (by simp)
              | some d =>
                  cases ht : pyTruthy d with
                  | false =>
                      rw [runChainAux_cons_falsy nm r d rest errs hs hd ht]
                      constructor
                      · intro hfail
                        rw [hs] at hfail
                        exact Bool.noConfusion hfail
                      · intro _ d' hd' htr'
                        rw [hd] at hd'
                        simp only [Option.some.injEq] at hd'
                        rw [← hd'] at htr'
                        rw [ht] at htr'
                        exact Bool.noConfusion htr'
                  | true =>
                      cases hn : normalizeE d with
                      | ok nd =>
                          rw [runChainAux_cons_norm nm r d nd rest errs hs hd ht hn]
                          constructor
                          · intro hfail
                            simp only at hfail
                            rw [hs] at hfail
                            exact Bool.noConfusion hfail
                          · intro _ d' hd' _
                            simp only [Option.some.injEq] at hd'
                            rw [← hd']
                            exact normalizeE_validates d nd hn
                      | error m =>
                          rw [runChainAux_cons_normfail nm r d m rest errs hs hd ht hn]
                          exact ih (errs ++ [nm ++ " exception: " ++ m])

/-- The ParseResult produced by ClaudeTilingStrategy.parse when the
coarse scan finds no ROI and the full-page fallback's JSON parse fails:
success with the empty dict as data (processing time and metadata
fields aside). -/
def tilingEmptySuccess : ParseResultM :=
  { success := true, data := some (tilingFullPageData none), error := none, confidenceScore := 0 }

/-- A failed OCR ParseResult as TesseractOCRStrategy.parse builds it. -/
def ocrFailedResult : ParseResultM :=
  { success := false, data := none, error := some "OCR failed to extract text from PDF", confidenceScore := 0 }

/-- A successful ParseResult whose data is a truthy dict. -/
def okDictResult : ParseResultM :=
  { success := true, data := some (.pydict [("bid_items", .pylist [])]), error := none, confidenceScore := 0 }

/-- The canonical empty normalized payload (what normalize makes of a
dict carrying only an empty bid_items list). -/
def emptyNormalized : PyVal :=
  .pydict [("bid_items", .pylist []), ("specifications", .pylist []),
    ("project_info", .pydict [("name", .pynone), ("location", .pynone), ("bid_date", .pynone)]),
    ("materials", .pylist [])]

/-- Counterexample to C2 as stated: the tiling strategy's no-ROI
branch with an unparseable model response succeeds with the empty
dict, which is falsy, so parse_with_fallback skips normalization and
returns success=true with data that does not conform to the schema. -/
theorem claim2_counterexample :
    (parseWithFallback [("Claude Tiling", .ok tilingEmptySuccess)]).success = true ∧
    (parseWithFallback [("Claude Tiling", .ok tilingEmptySuccess)]).data = some (.pydict []) ∧
    validateSchema (.pydict []) = false :=
  ⟨rfl, rfl, rfl⟩

/-- Claim C2 (amended): every ParseResult returned by
parse_with_fallback satisfies success=false implies data=None with an
error set, and success=true with truthy data implies the data conforms
to the normalized schema; a strategy succeeding with empty or missing
data is passed through unnormalized. -/
theorem claim2_result_invariant (chain : List StratEntry) :
    ((parseWithFallback chain).success = false →
      (parseWithFallback chain).data = none ∧
      ((parseWithFallback chain).error).isSome = true) ∧
    ((parseWithFallback chain).success = true →
      ∀ d, (parseWithFallback chain).data = some d → pyTruthy d = true →
        validateSchema d = true) := by
  unfold parseWithFallback
  by_cases hc : chain.isEmpty
  · rw [if_pos hc]
    refine ⟨fun _ => ⟨rfl, rfl⟩, fun hs => ?_⟩
    exact absurd hs (by simp)
  · rw [if_neg hc]
    exact runChainAux_invariant chain []

/-- Witness for C2 (amended): a chain whose only strategy fails yields
a data-free error result, and a chain whose strategy succeeds with a
truthy dict yields schema-conforming data. -/
theorem claim2_witness :
    ((parseWithFallback [("Tesseract Ocr", .ok ocrFailedResult)]).data = none ∧
      ((parseWithFallback [("Tesseract Ocr", .ok ocrFailedResult)]).error).isSome = true) ∧
    validateSchema emptyNormalized = true :=
  ⟨(claim2_result_invariant [("Tesseract Ocr", .ok ocrFailedResult)]).1 rfl,
   (claim2_result_invariant [("Openai Native", .ok okDictResult)]).2 rfl emptyNormalized rfl rfl⟩

/-! Claim C1. -/

/-- The failure message a chain entry contributes when the loop does
not return at it: the exception message, the recorded failure line, or
the message of an exception raised while normalizing its successful
data; `none` when the loop returns at this entry. -/
def stepMsg : StratEntry → Option String
  | (nm, .exn m) => some (nm ++ " exception: " ++ m)
  | (nm, .ok r) =>
      if r.success then
        match r.data with
        | some d =>
            if pyTruthy d then
              match normalizeE d with
              | .ok _ => none
              | .error m => some (nm ++ " exception: " ++ m)
            else none
        | none => none
      else some (nm ++ " failed: " ++ optErrStr r.error)

/-- The ParseResult the loop returns at a successful entry: data
normalized when truthy (and normalizable), otherwise untouched. -/
def returnedResult (r : ParseResultM) : ParseResultM :=
  match r.data with
  | some d =>
      if pyTruthy d then
        match normalizeE d with
        | .ok nd => { r with data := some nd }
        | .error _ => r
      else r
  | none => r

/-- Substring containment on strings, via the underlying character
lists. -/
def strContains (hay sub : String) : Prop := sub.data <:+: hay.data

/-- Any member of a list is contained in its separator join. -/
theorem mem_joinSep_infix (sep : String) (l : List String) (m : String) (hm : m ∈ l) :
    m.data <:+: (joinSep sep l).data := by
  induction l with
  | nil => cases hm
  | cons x rest ih =>
      cases rest with
      | nil =>
          simp only [List.mem_singleton] at hm
          rw [hm]
          exact List.infix_rfl
      | cons y ys =>
          rcases List.mem_cons.mp hm with h | h
          · rw [h]
            show x.data <:+: (x ++ sep ++ joinSep sep (y :: ys)).data
            rw [String.data_append, String.data_append]
            exact ((List.prefix_append _ _).trans (List.prefix_append _ _)).isInfix
          · have := ih h
            show m.data <:+: (x ++ sep ++ joinSep sep (y :: ys)).data
            rw [String.data_append]
            exact this.trans (List.suffix_append _ _).isInfix

/-- One consumed step of the loop, uniformly over the three ways an
entry can fail. -/
theorem runChainAux_cons_consumed (nm : String) (o : StratOutcome) (msg : String)
    (rest : List StratEntry) (errs : List String) (h : stepMsg (nm, o) = some msg) :
    runChainAux ((nm, o) :: rest) errs =
      ((runChainAux rest (errs ++ [msg])).fst, nm :: (runChainAux rest (errs ++ [msg])).snd) := by
  cases o with
  | exn m =>
      simp only [stepMsg, Option.some.injEq] at h
      rw [runChainAux_cons_exn, h]
  | ok r =>
      cases hs : r.success with
      | false =>
          have hmsg : msg = nm ++ " failed: " ++ optErrStr r.error := by
            simp only [stepMsg, hs] at h
            rw [if_neg (by simp)] at h
            exact (Option.some.injEq _ _ ▸ h).symm
          rw [runChainAux_cons_fail nm r rest errs hs, hmsg]
      | true =>
          cases hd : r.data with
          | none =>
              exfalso
              simp only [stepMsg, hs, hd] at h
              rw [if_pos trivial] at h
              exact Option.noConfusion h
          | some d =>
              cases ht : pyTruthy d with
              | false =>
                  exfalso
                  simp only [stepMsg, hs, hd] at h
                  rw [if_pos trivial] at h
                  rw [if_neg (by simp [ht])] at h
                  exact Option.noConfusion h
              | true =>
                  cases hn : normalizeE d with
                  | ok nd =>
                      exfalso
                      simp only [stepMsg, hs, hd] at h
                      rw [if_pos trivial] at h
                      rw [if_pos ht, hn] at h
                      exact Option.noConfusion h
                  | error m =>
                      have hmsg : msg = nm ++ " exception: " ++ m := by
                        simp only [stepMsg, hs, hd] at h
                        rw [if_pos trivial] at h
                        rw [if_pos ht, hn] at h
                        exact (Option.some.injEq _ _ ▸ h).symm
                      rw [runChainAux_cons_normfail nm r d m rest errs hs hd ht hn, hmsg]

/-- The loop returns at an entry exactly when stepMsg is none, and then
yields the (possibly normalized) result of that entry. -/
theorem runChainAux_cons_returns (nm : String) (r : ParseResultM)
    (rest : List StratEntry) (errs : List String) (h : stepMsg (nm, .ok r) = none) :
    runChainAux ((nm, .ok r) :: rest) errs = (returnedResult r, [nm]) ∧ r.success = true := by
  cases hs : r.success with
  | false =>
      exfalso
      simp only [stepMsg, hs] at h
      rw [if_neg (by simp)] at h
      exact Option.noConfusion h
  | true =>
      refine ⟨?_, rfl⟩
      cases hd : r.data with
      | none =>
          rw [runChainAux_cons_none nm r rest errs hs hd]
          unfold returnedResult
          rw [hd]
      | some d =>
          cases ht : pyTruthy d with
          | false =>
              rw [runChainAux_cons_falsy nm r d rest errs hs hd ht]
              unfold returnedResult
              rw [hd]
              dsimp only
              rw [if_neg (by simp [ht])]
          | true =>
              cases hn : normalizeE d with
              | ok nd =>
                  rw [runChainAux_cons_norm nm r d nd rest errs hs hd ht hn]
                  unfold returnedResult
                  rw [hd]
                  dsimp only
                  rw [if_pos ht, hn]
              | error m =>
                  exfalso
                  simp only [stepMsg, hs, hd] at h
                  rw [if_pos trivial] at h
                  rw [if_pos ht, hn] at h
                  exact Option.noConfusion h

/-- When every entry of the chain is consumed, the loop exhausts the
chain: all entries are attempted in order and the aggregate failure
result collects every message. -/
theorem runChainAux_all_consumed (chain : List StratEntry)
    (h : ∀ s ∈ chain, (stepMsg s).isSome = true) : ∀ errs : List String,
    runChainAux chain errs =
      (allFailedResult (errs ++ chain.filterMap stepMsg), chain.map Prod.fst) := by
  induction chain with
  | nil => intro errs; simp [runChainAux]
  | cons s rest ih =>
      intro errs
      obtain ⟨nm, o⟩ := s
      obtain ⟨msg, hmsg⟩ := Option.isSome_iff_exists.mp (h (nm, o) (by simp))
      have hrest : ∀ s ∈ rest, (stepMsg s).isSome = true := fun s hs => h s (by simp [hs])
      rw [runChainAux_cons_consumed nm o msg rest errs hmsg, ih hrest (errs ++ [msg])]
      have hfm : (((nm, o) :: rest).filterMap stepMsg) = msg :: rest.filterMap stepMsg := by
        rw [List.filterMap_cons, hmsg]
      rw [hfm]
      simp [List.append_assoc]

/-- When an entry returns, the loop stops there: the preceding consumed
entries and the returning one are the only attempted strategies, and
the returned result is the (normalized) success. -/
theorem runChainAux_first_success (pre : List StratEntry) (nm : String) (r : ParseResultM)
    (post : List StratEntry) (hpre : ∀ s ∈ pre, (stepMsg s).isSome = true)
    (hr : stepMsg (nm, .ok r) = none) : ∀ errs : List String,
    runChainAux (pre ++ (nm, .ok r) :: post) errs =
      (returnedResult r, pre.map Prod.fst ++ [nm]) := by
  induction pre with
  | nil =>
      intro errs
      exact (runChainAux_cons_returns nm r post errs hr).1
  | cons s pre' ih =>
      intro errs
      obtain ⟨nm', o'⟩ := s
      obtain ⟨msg, hmsg⟩ := Option.isSome_iff_exists.mp (hpre (nm', o') (by simp))
      have hpre' : ∀ s ∈ pre', (stepMsg s).isSome = true := fun s hs => hpre s (by simp [hs])
      rw [List.cons_append, runChainAux_cons_consumed nm' o' msg _ errs hmsg,
        ih hpre' (errs ++ [msg])]
      simp

/-- A strategy success whose data is a JSON array (reachable: the
strategies' _parse_json_response returns whatever json.loads yields,
dict or not). -/
def jsonListSuccess : ParseResultM :=
  { success := true, data := some (.pylist [.pyint 1]), error := none, confidenceScore := 0 }

/-- Counterexample to C1 as stated: the first strategy returns
success=true, yet its (truthy, non-dict) data raises inside the
normalizer; the same try/except catches that, records it, and invokes
the next strategy, whose result is the one returned. -/
theorem claim1_counterexample :
    jsonListSuccess.success = true ∧
    attemptedStrategies
      [("Openai Native", .ok jsonListSuccess), ("Claude Tiling", .ok okDictResult)]
      = ["Openai Native", "Claude Tiling"] ∧
    parseWithFallback
      [("Openai Native", .ok jsonListSuccess), ("Claude Tiling", .ok okDictResult)]
      = { success := true, data := some emptyNormalized, error := none, confidenceScore := 0 } :=
  ⟨rfl, rfl, rfl⟩

/-- Claim C1 (amended): strategies are attempted strictly in chain
order.  If every entry fails — returns success=false, raises, or
succeeds with truthy data whose normalization raises — the chain is
exhausted: the result has success=false and its error contains every
recorded failure message.  As soon as an entry succeeds and its data is
falsy or normalizes cleanly, that result (data normalized when truthy)
is returned and no later strategy is invoked. -/
theorem claim1_fallback_chain :
    (∀ chain : List StratEntry, (∀ s ∈ chain, (stepMsg s).isSome = true) →
      (parseWithFallback chain).success = false ∧
      attemptedStrategies chain = chain.map Prod.fst ∧
      (∀ s ∈ chain, ∀ m, stepMsg s = some m →
        ∃ e, (parseWithFallback chain).error = some e ∧ strContains e m)) ∧
    (∀ (pre : List StratEntry) (nm : String) (r : ParseResultM) (post : List StratEntry),
      (∀ s ∈ pre, (stepMsg s).isSome = true) →
      stepMsg (nm, .ok r) = none →
      r.success = true ∧
      parseWithFallback (pre ++ (nm, .ok r) :: post) = returnedResult r ∧
      attemptedStrategies (pre ++ (nm, .ok r) :: post) = pre.map Prod.fst ++ [nm]) := by
  constructor
  · intro chain hall
    by_cases hc : chain.isEmpty
    · obtain rfl : chain = [] := List.isEmpty_iff.mp hc
      refine ⟨rfl, rfl, ?_⟩
      intro s hs
      cases hs
    · have hrun := runChainAux_all_consumed chain hall []
      have hpw : parseWithFallback chain = allFailedResult (chain.filterMap stepMsg) := by
        unfold parseWithFallback
        rw [if_neg hc, hrun]
        simp
      refine ⟨by rw [hpw]; rfl, ?_, ?_⟩
      · unfold attemptedStrategies
        rw [hrun]
      · intro s hs m hm
        refine ⟨"All parsing strategies failed. " ++ joinSep "; " (chain.filterMap stepMsg),
          by rw [hpw]; rfl, ?_⟩
        have hmem : m ∈ chain.filterMap stepMsg := List.mem_filterMap.mpr ⟨s, hs, hm⟩
        have hinf := mem_joinSep_infix "; " (chain.filterMap stepMsg) m hmem
        unfold strContains
        rw [String.data_append]
        exact hinf.trans (List.suffix_append _ _).isInfix
  · intro pre nm r post hpre hr
    have hsuc := (runChainAux_cons_returns nm r post [] hr).2
    have hrun := runChainAux_first_success pre nm r post hpre hr []
    refine ⟨hsuc, ?_, ?_⟩
    · unfold parseWithFallback
      rw [if_neg (by simp), hrun]
    · unfold attemptedStrategies
      rw [hrun]

/-- Witness for C1 (amended): an all-failing one-strategy chain
aggregates its message, and a chain with a raising strategy followed by
a clean success returns the normalized success after attempting
exactly those two. -/
theorem claim1_witness :
    ((parseWithFallback [("Tesseract Ocr", .ok ocrFailedResult)]).success = false ∧
     attemptedStrategies [("Tesseract Ocr", .ok ocrFailedResult)] = ["Tesseract Ocr"] ∧
     (∃ e, (parseWithFallback [("Tesseract Ocr", .ok ocrFailedResult)]).error = some e ∧
        strContains e "Tesseract Ocr failed: OCR failed to extract text from PDF")) ∧
    (okDictResult.success = true ∧
     parseWithFallback [("Openai Native", .exn "boom"), ("Claude Tiling", .ok okDictResult)]
       = returnedResult okDictResult ∧
     attemptedStrategies [("Openai Native", .exn "boom"), ("Claude Tiling", .ok okDictResult)]
       = ["Openai Native", "Claude Tiling"]) := by
  constructor
  · obtain ⟨h1, h2, h3⟩ := claim1_fallback_chain.1 [("Tesseract Ocr", .ok ocrFailedResult)]
      (by rintro s hs; simp only [List.mem_singleton] at hs; subst hs; rfl)
    exact ⟨h1, h2, h3 ("Tesseract Ocr", .ok ocrFailedResult) (by simp)
      "Tesseract Ocr failed: OCR failed to extract text from PDF" (by rfl)⟩
  · obtain ⟨h1, h2, h3⟩ := claim1_fallback_chain.2 [("Openai Native", .exn "boom")]
      "Claude Tiling" okDictResult []
      (by rintro s hs; simp only [List.mem_singleton] at hs; subst hs; rfl) rfl
    exact ⟨h1, h2, h3⟩

/-! Claim C3. -/

/-- A tile covers the page-space pixel (px, py). -/
def coversPoint (t : TileRect) (px py : Int) : Bool :=
  decide (t.x ≤ px ∧ px < t.x + t.width ∧ t.y ≤ py ∧ py < t.y + t.height)

/-- Counterexample to C3 as stated: a 195 by 100 ROI tiled with
100 by 100 tiles at 10 percent overlap (grid steps of 90).  The
trailing x fragment at 180 spans only 15 pixels, below the 25-pixel
floor, and is discarded, while the previous tile reaches only x=190:
pixel (192, 50) of the region is covered by no tile. -/
theorem claim3_counterexample :
    ((createTiles 400 400 1 100 100 (1/10) (some ⟨0, 0, 195, 100, 1, 1, none⟩)).all
      (fun t => !coversPoint t 192 50)) = true ∧
    (0 ≤ (192 : Int) ∧ (192 : Int) < 195 ∧ 0 ≤ (50 : Int) ∧ (50 : Int) < 100) ∧
    ¬ ((195 : Int) ≤ 100 ∧ (100 : Int) ≤ 100) := by
  have hstep : truncRat ((((100 : Int)) : Rat) * (1 - 1/10)) = 90 := by norm_num [truncRat]
  refine ⟨?_, by decide, by decide⟩
  simp only [createTiles, regionDims, regionOrigin, hstep]
  decide

/-- Every member of a list appears as the payload of some entry of its
enumeration. -/
theorem mem_enumFrom_of_mem {α : Type} (v : α) : ∀ (l : List α) (n : Nat), v ∈ l →
    ∃ p ∈ l.enumFrom n, p.snd = v := by
  intro l
  induction l with
  | nil => intro n h; cases h
  | cons a as ih =>
      intro n h
      rcases List.mem_cons.mp h with h | h
      · exact ⟨(n, a), by simp [List.enumFrom_cons], h.symm⟩
      · obtain ⟨p, hp, hpv⟩ := ih (n + 1) h
        exact ⟨p, by simp [List.enumFrom_cons, hp], hpv⟩

/-- Every member of a list appears as the payload of some entry of its
enumeration (from zero). -/
theorem mem_enum_of_mem {α : Type} (v : α) (l : List α) (h : v ∈ l) :
    ∃ p ∈ l.enum, p.snd = v :=
  mem_enumFrom_of_mem v l 0 h

/-- Conversely, enumeration payloads are members. -/
theorem mem_of_mem_enumFrom {α : Type} (p : Nat × α) : ∀ (l : List α) (n : Nat),
    p ∈ l.enumFrom n → p.snd ∈ l := by
  intro l
  induction l with
  | nil => intro n h; cases h
  | cons a as ih =>
      intro n h
      rw [List.enumFrom_cons] at h
      rcases List.mem_cons.mp h with h | h
      · rw [h]; exact List.mem_cons_self a as
      · exact List.mem_cons_of_mem a (ih (n + 1) h)

/-- Enumeration payloads are members (from zero). -/
theorem mem_of_mem_enum {α : Type} (p : Nat × α) (l : List α) (h : p ∈ l.enum) :
    p.snd ∈ l :=
  mem_of_mem_enumFrom p l 0 h

/-- The grid point below a pixel: its range membership and the bracket
it puts around the pixel. -/
theorem grid_point_mem (stop step px : Int) (hstep : 0 < step) (hpx0 : 0 ≤ px)
    (hpx : px < stop) :
    (px / step) * step ∈ pyRange stop step ∧
    (px / step) * step ≤ px ∧ px < (px / step) * step + step := by
  have hk0 : 0 ≤ px / step := Int.ediv_nonneg hpx0 hstep.le
  have hdm := Int.ediv_add_emod px step
  have hm0 : 0 ≤ px % step := Int.emod_nonneg px (ne_of_gt hstep)
  have hms : px % step < step := Int.emod_lt_of_pos px hstep
  have hbracket1 : (px / step) * step ≤ px := by nlinarith [hdm]
  have hbracket2 : px < (px / step) * step + step := by nlinarith [hdm]
  refine ⟨?_, hbracket1, hbracket2⟩
  have hklt : px / step < (stop + step - 1) / step := by
    have h1 : px / step ≤ (stop - 1) / step := by
      rw [Int.le_ediv_iff_mul_le hstep]
      omega
    have h2 : (stop + step - 1) / step = (stop - 1) / step + 1 := by
      have : stop + step - 1 = (stop - 1) + 1 * step := by ring
      rw [this, Int.add_mul_ediv_right _ _ (ne_of_gt hstep)]
    omega
  unfold pyRange
  refine List.mem_map.mpr ⟨(px / step).toNat, List.mem_range.mpr ?_, ?_⟩
  · omega
  · have : ((px / step).toNat : Int) = px / step := Int.toNat_of_nonneg hk0
    rw [this]

/-- Inversion for a kept grid cell: its extent and the floor bounds. -/
theorem gridCell_some (regionW regionH tileW tileH minSz x y : Int)
    (v : Int × Int × Int × Int)
    (h : gridCell regionW regionH tileW tileH minSz x y = some v) :
    v = (x, y, min (x + tileW) regionW, min (y + tileH) regionH) ∧
    minSz ≤ min (x + tileW) regionW - x ∧ minSz ≤ min (y + tileH) regionH - y := by
  simp only [gridCell] at h
  split_ifs at h with hc
  push_neg at hc
  simp only [Option.some.injEq] at h
  exact ⟨h.symm, hc.1, hc.2⟩

/-- A grid cell whose spans clear the floor is kept. -/
theorem gridCell_eq_some (regionW regionH tileW tileH minSz x y : Int)
    (h1 : minSz ≤ min (x + tileW) regionW - x) (h2 : minSz ≤ min (y + tileH) regionH - y) :
    gridCell regionW regionH tileW tileH minSz x y =
      some (x, y, min (x + tileW) regionW, min (y + tileH) regionH) := by
  unfold gridCell
  rw [if_neg (by omega)]

/-- Claim C3 (amended): an ROI that fits a single tile produces exactly
one tile covering it; in the grid case every returned tile clears the
minimum-fragment floor in both dimensions; and when no grid fragment
falls below the floor (so no cell is skipped), the tiles cover every
pixel of the region.  In general skipped trailing fragments can leave
pixels near the far edges uncovered (see the counterexample). -/
theorem claim3_create_tiles :
    (∀ (imageW imageH pageNumber tileW tileH : Int) (overlap : Rat) (r : BBox),
      r.width ≤ tileW → r.height ≤ tileH →
      createTiles imageW imageH pageNumber tileW tileH overlap (some r) =
        [{ x := r.x, y := r.y, width := r.width, height := r.height,
           pageNumber := pageNumber, tileNumber := 0, totalTiles := 1 }]) ∧
    (∀ (imageW imageH pageNumber tileW tileH : Int) (overlap : Rat) (roi : Option BBox),
      ¬ ((regionDims imageW imageH roi).fst ≤ tileW ∧ (regionDims imageW imageH roi).snd ≤ tileH) →
      ∀ t ∈ createTiles imageW imageH pageNumber tileW tileH overlap roi,
        max (tileW / 4) (tileH / 4) ≤ t.width ∧ max (tileW / 4) (tileH / 4) ≤ t.height) ∧
    (∀ (imageW imageH pageNumber tileW tileH : Int) (overlap : Rat) (roi : Option BBox),
      ¬ ((regionDims imageW imageH roi).fst ≤ tileW ∧ (regionDims imageW imageH roi).snd ≤ tileH) →
      0 ≤ overlap → overlap ≤ 1 → 0 ≤ tileW → 0 ≤ tileH →
      0 < truncRat ((tileW : Rat) * (1 - overlap)) →
      0 < truncRat ((tileH : Rat) * (1 - overlap)) →
      (∀ x ∈ pyRange (regionDims imageW imageH roi).fst (truncRat ((tileW : Rat) * (1 - overlap))),
        max (tileW / 4) (tileH / 4) ≤ min (x + tileW) (regionDims imageW imageH roi).fst - x) →
      (∀ y ∈ pyRange (regionDims imageW imageH roi).snd (truncRat ((tileH : Rat) * (1 - overlap))),
        max (tileW / 4) (tileH / 4) ≤ min (y + tileH) (regionDims imageW imageH roi).snd - y) →
      ∀ px py : Int, 0 ≤ px → px < (regionDims imageW imageH roi).fst →
        0 ≤ py → py < (regionDims imageW imageH roi).snd →
        ∃ t ∈ createTiles imageW imageH pageNumber tileW tileH overlap roi,
          coversPoint t ((regionOrigin roi).fst + px) ((regionOrigin roi).snd + py) = true) := by
  refine ⟨?_, ?_, ?_⟩
  · intro imageW imageH pageNumber tileW tileH overlap r h1 h2
    simp only [createTiles, regionDims, regionOrigin]
    rw [if_pos ⟨h1, h2⟩]
  · intro imageW imageH pageNumber tileW tileH overlap roi hbig t ht
    simp only [createTiles] at ht
    rw [if_neg hbig] at ht
    obtain ⟨p, hp, rfl⟩ := List.mem_map.mp ht
    have hpr : p.snd ∈ (pyRange (regionDims imageW imageH roi).snd
        (truncRat ((tileH : Rat) * (1 - overlap)))).flatMap (fun y =>
          (pyRange (regionDims imageW imageH roi).fst
            (truncRat ((tileW : Rat) * (1 - overlap)))).filterMap (fun x =>
              gridCell (regionDims imageW imageH roi).fst (regionDims imageW imageH roi).snd
                tileW tileH (max (tileW / 4) (tileH / 4)) x y)) :=
      mem_of_mem_enum p _ hp
    obtain ⟨y, _, hmem2⟩ := List.mem_flatMap.mp hpr
    obtain ⟨x, _, hcell⟩ := List.mem_filterMap.mp hmem2
    obtain ⟨hv, hfx, hfy⟩ := gridCell_some _ _ _ _ _ _ _ _ hcell
    simp only [hv]
    exact ⟨hfx, hfy⟩
  · intro imageW imageH pageNumber tileW tileH overlap roi hbig ho0 ho1 htw0 hth0
      hsx hsy hnoskipx hnoskipy px py hpx0 hpxW hpy0 hpyH
    have hstepXle : truncRat ((tileW : Rat) * (1 - overlap)) ≤ tileW := by
      have harg : (0 : Rat) ≤ (tileW : Rat) * (1 - overlap) := by
        apply mul_nonneg
        · exact_mod_cast htw0
        · linarith
      rw [truncRat_of_nonneg _ harg]
      calc ⌊(tileW : Rat) * (1 - overlap)⌋ ≤ ⌊((tileW : Int) : Rat)⌋ := by
            apply Int.floor_le_floor
            have htwq : (0 : Rat) ≤ (tileW : Rat) := by exact_mod_cast htw0
            nlinarith
        _ = tileW := Int.floor_intCast tileW
    have hstepYle : truncRat ((tileH : Rat) * (1 - overlap)) ≤ tileH := by
      have harg : (0 : Rat) ≤ (tileH : Rat) * (1 - overlap) := by
        apply mul_nonneg
        · exact_mod_cast hth0
        · linarith
      rw [truncRat_of_nonneg _ harg]
      calc ⌊(tileH : Rat) * (1 - overlap)⌋ ≤ ⌊((tileH : Int) : Rat)⌋ := by
            apply Int.floor_le_floor
            have hthq : (0 : Rat) ≤ (tileH : Rat) := by exact_mod_cast hth0
            nlinarith
        _ = tileH := Int.floor_intCast tileH
    obtain ⟨hxmem, hxle, hxlt⟩ :=
      grid_point_mem (regionDims imageW imageH roi).fst
        (truncRat ((tileW : Rat) * (1 - overlap))) px hsx hpx0 hpxW
    obtain ⟨hymem, hyle, hylt⟩ :=
      grid_point_mem (regionDims imageW imageH roi).snd
        (truncRat ((tileH : Rat) * (1 - overlap))) py hsy hpy0 hpyH
    set sx := truncRat ((tileW : Rat) * (1 - overlap)) with hsxdef
    set sy := truncRat ((tileH : Rat) * (1 - overlap)) with hsydef
    set gx := (px / sx) * sx with hgxdef
    set gy := (py / sy) * sy with hgydef
    have hcell := gridCell_eq_some (regionDims imageW imageH roi).fst
      (regionDims imageW imageH roi).snd tileW tileH (max (tileW / 4) (tileH / 4)) gx gy
      (hnoskipx gx hxmem) (hnoskipy gy hymem)
    have hraw : (gx, gy, min (gx + tileW) (regionDims imageW imageH roi).fst,
        min (gy + tileH) (regionDims imageW imageH roi).snd) ∈
        (pyRange (regionDims imageW imageH roi).snd sy).flatMap (fun y =>
          (pyRange (regionDims imageW imageH roi).fst sx).filterMap (fun x =>
            gridCell (regionDims imageW imageH roi).fst (regionDims imageW imageH roi).snd
              tileW tileH (max (tileW / 4) (tileH / 4)) x y)) :=
      List.mem_flatMap.mpr ⟨gy, hymem, List.mem_filterMap.mpr ⟨gx, hxmem, hcell⟩⟩
    obtain ⟨p, hp, hpv⟩ := mem_enum_of_mem _ _ hraw
    have h1 : px < min (gx + tileW) (regionDims imageW imageH roi).fst := by
      apply lt_min
      · omega
      · exact hpxW
    have h2 : py < min (gy + tileH) (regionDims imageW imageH roi).snd := by
      apply lt_min
      · omega
      · exact hpyH
    simp only [createTiles]
    rw [if_neg hbig]
    refine ⟨_, List.mem_map.mpr ⟨p, hp, rfl⟩, ?_⟩
    simp only [hpv, coversPoint, decide_eq_true_eq]
    refine ⟨by omega, by omega, by omega, by omega⟩

/-- Witness for C3 (amended): a 150 by 100 region with 100 by 100
tiles and no overlap (steps of 100 would leave a 50-wide fragment, so
use 80 by 80 tiles: steps 80, fragments 70 and 20...); concretely an
80 by 80 tile grid over 140 by 60 with zero overlap keeps every cell
and covers the probe pixels. -/
theorem claim3_witness :
    createTiles 400 400 1 100 100 (1/10) (some ⟨3, 4, 90, 80, 1, 1, none⟩)
      = [{ x := 3, y := 4, width := 90, height := 80, pageNumber := 1, tileNumber := 0, totalTiles := 1 }] ∧
    (∀ t ∈ createTiles 400 400 1 80 80 0 (some ⟨0, 0, 140, 60, 1, 1, none⟩),
      max (80 / 4 : Int) (80 / 4) ≤ t.width ∧ max (80 / 4 : Int) (80 / 4) ≤ t.height) ∧
    (∃ t ∈ createTiles 400 400 1 80 80 0 (some ⟨0, 0, 140, 60, 1, 1, none⟩),
      coversPoint t (0 + 139) (0 + 59) = true) := by
  refine ⟨?_, ?_, ?_⟩
  · exact claim3_create_tiles.1 400 400 1 100 100 (1/10) ⟨3, 4, 90, 80, 1, 1, none⟩
      (by decide) (by decide)
  · exact claim3_create_tiles.2.1 400 400 1 80 80 0 (some ⟨0, 0, 140, 60, 1, 1, none⟩)
      (by decide)
  · have hsx : truncRat (((80 : Int) : Rat) * (1 - 0)) = 80 := by norm_num [truncRat]
    refine claim3_create_tiles.2.2 400 400 1 80 80 0 (some ⟨0, 0, 140, 60, 1, 1, none⟩)
      (by decide) (by norm_num) (by norm_num) (by decide) (by decide)
      (by rw [hsx]; decide) (by rw [hsx]; decide) ?_ ?_ 139 59 (by decide) (by decide)
      (by decide) (by decide)
    · rw [hsx]
      decide
    · rw [hsx]
      decide

/-! Claim C7. -/

/-- dropWhile is idempotent. -/
theorem dropWhile_dropWhile {α : Type} (p : α → Bool) (l : List α) :
    (l.dropWhile p).dropWhile p = l.dropWhile p := by
  induction l with
  | nil => rfl
  | cons a as ih =>
      by_cases h : p a
      · rw [List.dropWhile_cons_of_pos h, ih]
      · rw [List.dropWhile_cons_of_neg h, List.dropWhile_cons_of_neg h]

/-- The head of a dropWhile result fails the predicate. -/
theorem head_dropWhile_fails {α : Type} (p : α → Bool) (l : List α) (c : α)
    (h : (l.dropWhile p).head? = some c) : p c = false := by
  induction l with
  | nil => cases h
  | cons a as ih =>
      by_cases hp : p a
      · rw [List.dropWhile_cons_of_pos hp] at h
        exact ih h
      · rw [List.dropWhile_cons_of_neg hp] at h
        simp only [List.head?_cons, Option.some.injEq] at h
        rw [← h]
        exact Bool.of_not_eq_true hp

/-- A list whose head fails the predicate is untouched by dropWhile. -/
theorem dropWhile_eq_self_of_head {α : Type} (p : α → Bool) (l : List α)
    (h : ∀ c, l.head? = some c → p c = false) : l.dropWhile p = l := by
  cases l with
  | nil => rfl
  | cons a as =>
      have := h a rfl
      rw [List.dropWhile_cons_of_neg (by simp [this])]

/-- dropWhile keeps the last element of a list it does not empty. -/
theorem getLast_dropWhile {α : Type} (p : α → Bool) (l : List α)
    (h : l.dropWhile p ≠ []) : (l.dropWhile p).getLast? = l.getLast? := by
  induction l with
  | nil => rfl
  | cons a as ih =>
      by_cases hp : p a
      · rw [List.dropWhile_cons_of_pos hp] at h ⊢
        have has : as ≠ [] := by
          intro hnil
          rw [hnil] at h
          exact h rfl
        rw [ih h]
        cases as with
        | nil => exact absurd rfl has
        | cons b bs => rw [List.getLast?_cons_cons]
      · rw [List.dropWhile_cons_of_neg hp]

/-- Stripping is idempotent on character lists. -/
theorem pyStripList_idem (l : List Char) :
    pyStripList (pyStripList l) = pyStripList l := by
  set A := l.dropWhile pySpace with hA
  set m := A.reverse.dropWhile pySpace with hm
  have hstrip : pyStripList l = m.reverse := rfl
  rw [hstrip]
  by_cases hmnil : m = []
  · rw [hmnil]
    rfl
  · have hArev : A.reverse ≠ [] := by
      intro hnil
      rw [hm, hnil] at hmnil
      exact hmnil rfl
    have hAne : A ≠ [] := by
      intro hnil
      rw [hnil] at hArev
      exact hArev rfl
    have hheadA : ∃ c, A.head? = some c := by
      cases hc : A.head? with
      | none => exact absurd (List.head?_eq_none_iff.mp hc) hAne
      | some c => exact ⟨c, rfl⟩
    obtain ⟨c, hc⟩ := hheadA
    have hcfail : pySpace c = false := head_dropWhile_fails pySpace l c (hA ▸ hc)
    have hrev_head : (m.reverse).head? = some c := by
      rw [List.head?_reverse]
      rw [getLast_dropWhile pySpace A.reverse (hm ▸ hmnil)]
      rw [List.getLast?_reverse]
      exact hc
    have hD1 : m.reverse.dropWhile pySpace = m.reverse := by
      apply dropWhile_eq_self_of_head
      intro d hd
      rw [hrev_head] at hd
      simp only [Option.some.injEq] at hd
      rw [← hd]
      exact hcfail
    show ((m.reverse.dropWhile pySpace).reverse.dropWhile pySpace).reverse = m.reverse
    rw [hD1, List.reverse_reverse, hm, dropWhile_dropWhile]

/-- Stripping is idempotent on strings. -/
theorem pyStrip_idem (s : String) : pyStrip (pyStrip s) = pyStrip s := by
  show String.mk (pyStripList (pyStrip s).data) = pyStrip s
  have hdata : (pyStrip s).data = pyStripList s.data := rfl
  rw [hdata, pyStripList_idem]
  rfl

/-- Canonical shape of a _normalize_string result: None, or a
non-empty already-stripped string. -/
def strCanon (s : PyVal) : Prop :=
  s = .pynone ∨ ∃ t, s = .pystr t ∧ t ≠ "" ∧ pyStrip t = t

/-- Canonical shape of a _normalize_number result: None or a float. -/
def numCanon (s : PyVal) : Prop :=
  s = .pynone ∨ ∃ q, s = .pyfloat q

/-- Every _normalize_string output is canonical. -/
theorem normalizeString_canon (v : PyVal) : strCanon (normalizeString v) := by
  have hstr : ∀ s : String, strCanon (if pyStrip s == "" then PyVal.pynone else .pystr (pyStrip s)) := by
    intro s
    by_cases h : pyStrip s == ""
    · rw [if_pos h]
      exact Or.inl rfl
    · rw [if_neg h]
      refine Or.inr ⟨pyStrip s, rfl, by simpa using h, pyStrip_idem s⟩
  cases v with
  | pynone => exact Or.inl rfl
  | pystr s => exact hstr s
  | pybool b => exact hstr (pyStr (.pybool b))
  | pyint n => exact hstr (pyStr (.pyint n))
  | pyfloat q => exact hstr (pyStr (.pyfloat q))
  | pylist l => exact hstr (pyStr (.pylist l))
  | pydict d => exact hstr (pyStr (.pydict d))

/-- Every _normalize_number output is canonical. -/
theorem normalizeNumber_canon (v : PyVal) : numCanon (normalizeNumber v) := by
  cases v with
  | pynone => exact Or.inl rfl
  | pybool b => exact Or.inr ⟨_, rfl⟩
  | pyint n => exact Or.inr ⟨_, rfl⟩
  | pyfloat q => exact Or.inr ⟨_, rfl⟩
  | pystr s =>
      rcases hf : pyFloatOfString? ⟨(pyStrip s).data.filter (fun c => c != ',' && c != '$')⟩ with _ | q
      · exact Or.inl (by simp [normalizeNumber, hf])
      · exact Or.inr ⟨q, by simp [normalizeNumber, hf]⟩
  | pylist l => exact Or.inl rfl
  | pydict d => exact Or.inl rfl

/-- Re-normalizing a canonical string through the alias chain of a
normalized item (whose alias keys are all absent) is the identity. -/
theorem renormString (s : PyVal) (h : strCanon s) :
    normalizeString (pyOr s (pyOr .pynone .pynone)) = s := by
  rcases h with h | ⟨t, ht, htne, hstrip⟩
  · rw [h]
    rfl
  · rw [ht]
    have htr : pyTruthy (.pystr t) = true := by
      simp [pyTruthy, htne]
    unfold pyOr
    rw [if_pos htr]
    show (if (pyStrip t == "") = true then PyVal.pynone else PyVal.pystr (pyStrip t)) = PyVal.pystr t
    rw [if_neg (by simp [hstrip, htne])]
    rw [hstrip]

/-- Re-normalizing a canonical non-zero number through the alias chain
is the identity. -/
theorem renormNumber (s : PyVal) (h : numCanon s) (h0 : s ≠ .pyfloat 0) :
    normalizeNumber (pyOr s (pyOr .pynone .pynone)) = s := by
  rcases h with h | ⟨q, hq⟩
  · rw [h]
    rfl
  · rw [hq]
    have hqne : q ≠ 0 := by
      intro hz
      rw [hz] at hq
      exact h0 hq
    have htr : pyTruthy (.pyfloat q) = true := by
      simp [pyTruthy, hqne]
    unfold pyOr
    rw [if_pos htr]
    rfl

/-- The bid-item normalizer on an already-normalized literal item: the
alias keys are absent, so each chain collapses to the stored value. -/
theorem normalizeBidItem_fields (a b c u e : PyVal) :
    normalizeBidItem
      [("item_number", a), ("description", b), ("quantity", c), ("unit", u), ("unit_price", e)]
    = [("item_number", normalizeString (pyOr a (pyOr .pynone .pynone))),
       ("description", normalizeString (pyOr b (pyOr .pynone .pynone))),
       ("quantity", normalizeNumber (pyOr c (pyOr .pynone .pynone))),
       ("unit", normalizeString (pyOr u (pyOr .pynone .pynone))),
       ("unit_price", normalizeNumber (pyOr e (pyOr .pynone .pynone)))] := rfl

/-- Re-normalizing a normalized bid item with non-zero numeric fields
is the identity. -/
theorem normalizeBidItem_renorm (a b c u e : PyVal)
    (ha : strCanon a) (hb : strCanon b) (hc : numCanon c) (hu : strCanon u) (he : numCanon e)
    (hc0 : c ≠ .pyfloat 0) (he0 : e ≠ .pyfloat 0) :
    normalizeBidItem
      [("item_number", a), ("description", b), ("quantity", c), ("unit", u), ("unit_price", e)]
    = [("item_number", a), ("description", b), ("quantity", c), ("unit", u), ("unit_price", e)] := by
  rw [normalizeBidItem_fields, renormString a ha, renormString b hb,
    renormNumber c hc hc0, renormString u hu, renormNumber e he he0]

/-- The spec normalizer on an already-normalized literal item. -/
theorem normalizeSpecItem_fields (a b : PyVal) :
    normalizeSpecItem [("code", a), ("description", b)]
    = [("code", normalizeString (pyOr a (pyOr .pynone .pynone))),
       ("description", normalizeString (pyOr b (pyOr .pynone .pynone)))] := rfl

/-- Re-normalizing a normalized spec item is the identity. -/
theorem normalizeSpecItem_renorm (a b : PyVal) (ha : strCanon a) (hb : strCanon b) :
    normalizeSpecItem [("code", a), ("description", b)] = [("code", a), ("description", b)] := by
  rw [normalizeSpecItem_fields, renormString a ha, renormString b hb]

/-- The material normalizer on an already-normalized literal item. -/
theorem normalizeMaterialItem_fields (a c u s : PyVal) :
    normalizeMaterialItem [("name", a), ("quantity", c), ("unit", u), ("specification", s)]
    = [("name", normalizeString (pyOr a (pyOr .pynone .pynone))),
       ("quantity", normalizeNumber (pyOr c (pyOr .pynone .pynone))),
       ("unit", normalizeString (pyOr u (pyOr .pynone .pynone))),
       ("specification", normalizeString (pyOr s (pyOr .pynone .pynone)))] := rfl

/-- Re-normalizing a normalized material with non-zero quantity is the
identity. -/
theorem normalizeMaterialItem_renorm (a c u s : PyVal)
    (ha : strCanon a) (hc : numCanon c) (hu : strCanon u) (hs : strCanon s)
    (hc0 : c ≠ .pyfloat 0) :
    normalizeMaterialItem [("name", a), ("quantity", c), ("unit", u), ("specification", s)]
    = [("name", a), ("quantity", c), ("unit", u), ("specification", s)] := by
  rw [normalizeMaterialItem_fields, renormString a ha, renormNumber c hc hc0,
    renormString u hu, renormString s hs]

/-- A normalized bid item is zero-free in its numeric fields. -/
def itemZeroFree (v : PyVal) : Prop :=
  match v with
  | .pydict m => pyGet m "quantity" ≠ .pyfloat 0 ∧ pyGet m "unit_price" ≠ .pyfloat 0
  | _ => True

/-- A normalized material is zero-free in its quantity. -/
def matZeroFree (v : PyVal) : Prop :=
  match v with
  | .pydict m => pyGet m "quantity" ≠ .pyfloat 0
  | _ => True

/-- keepBidItem fixes an already-normalized, zero-free, kept item. -/
theorem keepBidItem_literal (a b c u e : PyVal)
    (ha : strCanon a) (hb : strCanon b) (hc : numCanon c) (hu : strCanon u) (he : numCanon e)
    (hc0 : c ≠ .pyfloat 0) (he0 : e ≠ .pyfloat 0)
    (hcond : (pyTruthy a || pyTruthy b) = true) :
    keepBidItem (.pydict
      [("item_number", a), ("description", b), ("quantity", c), ("unit", u), ("unit_price", e)])
    = some (.pydict
      [("item_number", a), ("description", b), ("quantity", c), ("unit", u), ("unit_price", e)]) := by
  simp only [keepBidItem]
  rw [if_neg (by simp)]
  rw [normalizeBidItem_renorm a b c u e ha hb hc hu he hc0 he0]
  have h1 : pyGet
      [("item_number", a), ("description", b), ("quantity", c), ("unit", u), ("unit_price", e)]
      "item_number" = a := rfl
  have h2 : pyGet
      [("item_number", a), ("description", b), ("quantity", c), ("unit", u), ("unit_price", e)]
      "description" = b := rfl
  rw [h1, h2, if_pos hcond]

/-- keepSpecItem fixes an already-normalized, kept spec. -/
theorem keepSpecItem_literal (a b : PyVal) (ha : strCanon a) (hb : strCanon b)
    (hcond : pyTruthy a = true) :
    keepSpecItem (.pydict [("code", a), ("description", b)])
    = some (.pydict [("code", a), ("description", b)]) := by
  simp only [keepSpecItem]
  rw [if_neg (by simp)]
  rw [normalizeSpecItem_renorm a b ha hb]
  have h1 : pyGet [("code", a), ("description", b)] "code" = a := rfl
  rw [h1, if_pos hcond]

/-- keepMaterialItem fixes an already-normalized, zero-free, kept
material. -/
theorem keepMaterialItem_literal (a c u s : PyVal)
    (ha : strCanon a) (hc : numCanon c) (hu : strCanon u) (hs : strCanon s)
    (hc0 : c ≠ .pyfloat 0) (hcond : pyTruthy a = true) :
    keepMaterialItem (.pydict [("name", a), ("quantity", c), ("unit", u), ("specification", s)])
    = some (.pydict [("name", a), ("quantity", c), ("unit", u), ("specification", s)]) := by
  simp only [keepMaterialItem]
  rw [if_neg (by simp)]
  rw [normalizeMaterialItem_renorm a c u s ha hc hu hs hc0]
  have h1 : pyGet [("name", a), ("quantity", c), ("unit", u), ("specification", s)] "name" = a := rfl
  rw [h1, if_pos hcond]

/-- Anything keepBidItem keeps it fixes, provided its numeric fields
are non-zero. -/
theorem keepBidItem_fix (v w : PyVal) (h : keepBidItem v = some w) (hz : itemZeroFree w) :
    keepBidItem w = some w := by
  cases v with
  | pydict d0 =>
      simp only [keepBidItem] at h
      by_cases hne : d0.isEmpty
      · rw [if_pos hne] at h
        exact absurd h (by simp)
      · rw [if_neg hne] at h
        split_ifs at h with hcond
        simp only [Option.some.injEq] at h
        rw [← h] at hz ⊢
        exact keepBidItem_literal _ _ _ _ _
          (normalizeString_canon _) (normalizeString_canon _) (normalizeNumber_canon _)
          (normalizeString_canon _) (normalizeNumber_canon _) hz.1 hz.2 hcond
  | pynone => exact absurd h (by simp [keepBidItem])
  | pybool b => exact absurd h (by simp [keepBidItem])
  | pyint n => exact absurd h (by simp [keepBidItem])
  | pyfloat q => exact absurd h (by simp [keepBidItem])
  | pystr s => exact absurd h (by simp [keepBidItem])
  | pylist l => exact absurd h (by simp [keepBidItem])

/-- Anything keepSpecItem keeps it fixes. -/
theorem keepSpecItem_fix (v w : PyVal) (h : keepSpecItem v = some w) :
    keepSpecItem w = some w := by
  cases v with
  | pydict d0 =>
      simp only [keepSpecItem] at h
      by_cases hne : d0.isEmpty
      · rw [if_pos hne] at h
        exact absurd h (by simp)
      · rw [if_neg hne] at h
        split_ifs at h with hcond
        simp only [Option.some.injEq] at h
        rw [← h]
        exact keepSpecItem_literal _ _
          (normalizeString_canon _) (normalizeString_canon _) hcond
  | pynone => exact absurd h (by simp [keepSpecItem])
  | pybool b => exact absurd h (by simp [keepSpecItem])
  | pyint n => exact absurd h (by simp [keepSpecItem])
  | pyfloat q => exact absurd h (by simp [keepSpecItem])
  | pystr s => exact absurd h (by simp [keepSpecItem])
  | pylist l => exact absurd h (by simp [keepSpecItem])

/-- Anything keepMaterialItem keeps it fixes, provided its quantity is
non-zero. -/
theorem keepMaterialItem_fix (v w : PyVal) (h : keepMaterialItem v = some w)
    (hz : matZeroFree w) : keepMaterialItem w = some w := by
  cases v with
  | pydict d0 =>
      simp only [keepMaterialItem] at h
      by_cases hne : d0.isEmpty
      · rw [if_pos hne] at h
        exact absurd h (by simp)
      · rw [if_neg hne] at h
        split_ifs at h with hcond
        simp only [Option.some.injEq] at h
        rw [← h] at hz ⊢
        exact keepMaterialItem_literal _ _ _ _
          (normalizeString_canon _) (normalizeNumber_canon _) (normalizeString_canon _)
          (normalizeString_canon _) hz hcond
  | pynone => exact absurd h (by simp [keepMaterialItem])
  | pybool b => exact absurd h (by simp [keepMaterialItem])
  | pyint n => exact absurd h (by simp [keepMaterialItem])
  | pyfloat q => exact absurd h (by simp [keepMaterialItem])
  | pystr s => exact absurd h (by simp [keepMaterialItem])
  | pylist l => exact absurd h (by simp [keepMaterialItem])

/-- filterMap by a function fixing every member is the identity. -/
theorem filterMap_eq_self {α : Type} (f : α → Option α) (l : List α)
    (h : ∀ v ∈ l, f v = some v) : l.filterMap f = l := by
  induction l with
  | nil => rfl
  | cons a as ih =>
      rw [List.filterMap_cons, h a (by simp)]
      rw [ih (fun v hv => h v (by simp [hv]))]

/-- Shape of any _normalize_project_info result: three canonical
string fields. -/
theorem normalizeProjectInfo_shape (v : PyVal) :
    ∃ a b c, normalizeProjectInfo v = .pydict [("name", a), ("location", b), ("bid_date", c)] ∧
      strCanon a ∧ strCanon b ∧ strCanon c :=
  ⟨_, _, _, rfl, normalizeString_canon _, normalizeString_canon _, normalizeString_canon _⟩

/-- Re-normalizing a normalized project-info literal is the identity. -/
theorem normalizeProjectInfo_renorm_literal (a b c : PyVal)
    (ha : strCanon a) (hb : strCanon b) (hc : strCanon c) :
    normalizeProjectInfo (.pydict [("name", a), ("location", b), ("bid_date", c)])
    = .pydict [("name", a), ("location", b), ("bid_date", c)] := by
  have hred : normalizeProjectInfo (.pydict [("name", a), ("location", b), ("bid_date", c)])
      = .pydict [("name", normalizeString (pyOr a (pyOr .pynone .pynone))),
                 ("location", normalizeString (pyOr b (pyOr .pynone .pynone))),
                 ("bid_date", normalizeString (pyOr c (pyOr .pynone .pynone)))] := rfl
  rw [hred, renormString a ha, renormString b hb, renormString c hc]

/-- _normalize_project_info is idempotent. -/
theorem normalizeProjectInfo_idem (v : PyVal) :
    normalizeProjectInfo (normalizeProjectInfo v) = normalizeProjectInfo v := by
  obtain ⟨a, b, c, hv, ha, hb, hc⟩ := normalizeProjectInfo_shape v
  rw [hv, normalizeProjectInfo_renorm_literal a b c ha hb hc]

/-- Structure of a successful _normalize_bid_items result. -/
theorem normalizeBidItems_ok_struct (itms bi : PyVal) (h : normalizeBidItems itms = .ok bi) :
    ∃ l0 : List PyVal, bi = .pylist (l0.filterMap keepBidItem) := by
  unfold normalizeBidItems at h
  cases hpi : pyIter itms with
  | error e => rw [hpi] at h; exact absurd h (by simp)
  | ok l => rw [hpi] at h; simp only [Except.ok.injEq] at h; exact ⟨l, h.symm⟩

/-- Structure of a successful _normalize_specifications result. -/
theorem normalizeSpecifications_ok_struct (sp v : PyVal)
    (h : normalizeSpecifications sp = .ok v) :
    ∃ l0 : List PyVal, v = .pylist (l0.filterMap keepSpecItem) := by
  unfold normalizeSpecifications at h
  cases hpi : pyIter sp with
  | error e => rw [hpi] at h; exact absurd h (by simp)
  | ok l => rw [hpi] at h; simp only [Except.ok.injEq] at h; exact ⟨l, h.symm⟩

/-- Structure of a successful _normalize_materials result. -/
theorem normalizeMaterials_ok_struct (mv v : PyVal) (h : normalizeMaterials mv = .ok v) :
    ∃ l0 : List PyVal, v = .pylist (l0.filterMap keepMaterialItem) := by
  unfold normalizeMaterials at h
  cases hpi : pyIter mv with
  | error e => rw [hpi] at h; exact absurd h (by simp)
  | ok l => rw [hpi] at h; simp only [Except.ok.injEq] at h; exact ⟨l, h.symm⟩

/-- _normalize_bid_items fixes a list of fixed items. -/
theorem normalizeBidItems_fix (lb : List PyVal) (h : ∀ v ∈ lb, keepBidItem v = some v) :
    normalizeBidItems (.pylist lb) = .ok (.pylist lb) := by
  show Except.ok (PyVal.pylist (lb.filterMap keepBidItem)) = .ok (.pylist lb)
  rw [filterMap_eq_self keepBidItem lb h]

/-- _normalize_specifications fixes a list of fixed items. -/
theorem normalizeSpecifications_fix (ls : List PyVal)
    (h : ∀ v ∈ ls, keepSpecItem v = some v) :
    normalizeSpecifications (.pylist ls) = .ok (.pylist ls) := by
  show Except.ok (PyVal.pylist (ls.filterMap keepSpecItem)) = .ok (.pylist ls)
  rw [filterMap_eq_self keepSpecItem ls h]

/-- _normalize_materials fixes a list of fixed items. -/
theorem normalizeMaterials_fix (lm : List PyVal) (h : ∀ v ∈ lm, keepMaterialItem v = some v) :
    normalizeMaterials (.pylist lm) = .ok (.pylist lm) := by
  show Except.ok (PyVal.pylist (lm.filterMap keepMaterialItem)) = .ok (.pylist lm)
  rw [filterMap_eq_self keepMaterialItem lm h]

/-- Assembly rule for normalize on a non-empty dict whose parts are
known. -/
theorem normalizeE_build (d : List (String × PyVal)) (bi sp mat pi : PyVal)
    (hne : d.isEmpty = false)
    (hbi : normalizeBidItems (pyGetD d "bid_items" (.pylist [])) = .ok bi)
    (hsp : normalizeSpecifications (pyGetD d "specifications" (.pylist [])) = .ok sp)
    (hmat : normalizeMaterials (pyGetD d "materials" (.pylist [])) = .ok mat)
    (hpi : normalizeProjectInfo (pyGetD d "project_info" (.pydict [])) = pi) :
    normalizeE (.pydict d) = .ok (.pydict
      ([("bid_items", bi), ("specifications", sp), ("project_info", pi), ("materials", mat)]
        ++ (match d.find? (fun kv => kv.fst == "raw_text") with
            | some kv => [("raw_text", kv.snd)]
            | none => []))) := by
  unfold normalizeE
  rw [if_neg (by simp [pyTruthy, hne])]
  dsimp only
  rw [hbi]
  dsimp only
  rw [hsp]
  dsimp only
  rw [hmat]
  dsimp only
  rw [hpi]
  cases hraw : d.find? (fun kv => kv.fst == "raw_text") with
  | some kv => rfl
  | none => rfl

/-- The zero-freedom condition on a normalized payload: no bid item or
material carries a numeric field equal to 0.0. -/
def payloadZeroFree (y : PyVal) : Prop :=
  match y with
  | .pydict d =>
      (match pyGet d "bid_items" with
       | .pylist l => ∀ v ∈ l, itemZeroFree v
       | _ => True) ∧
      (match pyGet d "materials" with
       | .pylist l => ∀ v ∈ l, matZeroFree v
       | _ => True)
  | _ => True

/-- Claim C7 (amended): OutputNormalizer.normalize is idempotent on its
own output whenever the normalized payload carries no zero-valued
numeric fields: if normalize(x) = y and y is zero-free, then
normalize(y) = y.  A falsy x yields the empty schema, which is a fixed
point; a truthy x yields a payload every component of which except the
zero-sensitive numeric fields re-normalizes to itself. -/
theorem claim7_normalize_conditional_idem (x y : PyVal)
    (h : normalizeE x = .ok y) (hz : payloadZeroFree y) :
    normalizeE y = .ok y := by
  by_cases ht : pyTruthy x = true
  swap
  · have hf : pyTruthy x = false := by simpa using ht
    unfold normalizeE at h
    rw [if_pos (by rw [hf]; rfl)] at h
    simp only [Except.ok.injEq] at h
    subst h
    rfl
  unfold normalizeE at h
  rw [if_neg (by simp [ht])] at h
  cases x with
  | pynone => dsimp only at h; exact absurd h (by simp)
  | pybool b => dsimp only at h; exact absurd h (by simp)
  | pyint n => dsimp only at h; exact absurd h (by simp)
  | pyfloat q => dsimp only at h; exact absurd h (by simp)
  | pystr s => dsimp only at h; exact absurd h (by simp)
  | pylist l => dsimp only at h; exact absurd h (by simp)
  | pydict d =>
      dsimp only at h
      cases hbi : normalizeBidItems (pyGetD d "bid_items" (.pylist [])) with
      | error e => rw [hbi] at h; exact absurd h (by simp)
      | ok bi =>
      rw [hbi] at h
      dsimp only at h
      cases hsp : normalizeSpecifications (pyGetD d "specifications" (.pylist [])) with
      | error e => rw [hsp] at h; exact absurd h (by simp)
      | ok sp =>
      rw [hsp] at h
      dsimp only at h
      cases hmat : normalizeMaterials (pyGetD d "materials" (.pylist [])) with
      | error e => rw [hmat] at h; exact absurd h (by simp)
      | ok mat =>
      rw [hmat] at h
      dsimp only at h
      obtain ⟨lb, hbil⟩ := normalizeBidItems_ok_struct _ _ hbi
      obtain ⟨ls, hspl⟩ := normalizeSpecifications_ok_struct _ _ hsp
      obtain ⟨lm, hmatl⟩ := normalizeMaterials_ok_struct _ _ hmat
      subst hbil
      subst hspl
      subst hmatl
      cases hraw : d.find? (fun kv => kv.fst == "raw_text") with
      | some kv =>
          rw [hraw] at h
          simp only [Except.ok.injEq] at h
          subst h
          have hz1 : ∀ v ∈ lb.filterMap keepBidItem, itemZeroFree v := hz.1
          have hz2 : ∀ v ∈ lm.filterMap keepMaterialItem, matZeroFree v := hz.2
          have hb2 : normalizeBidItems (.pylist (lb.filterMap keepBidItem))
              = .ok (.pylist (lb.filterMap keepBidItem)) :=
            normalizeBidItems_fix _ (fun v hv => by
              obtain ⟨a, ha, hav⟩ := List.mem_filterMap.mp hv
              exact keepBidItem_fix a v hav (hz1 v hv))
          have hs2 : normalizeSpecifications (.pylist (ls.filterMap keepSpecItem))
              = .ok (.pylist (ls.filterMap keepSpecItem)) :=
            normalizeSpecifications_fix _ (fun v hv => by
              obtain ⟨a, ha, hav⟩ := List.mem_filterMap.mp hv
              exact keepSpecItem_fix a v hav)
          have hm2 : normalizeMaterials (.pylist (lm.filterMap keepMaterialItem))
              = .ok (.pylist (lm.filterMap keepMaterialItem)) :=
            normalizeMaterials_fix _ (fun v hv => by
              obtain ⟨a, ha, hav⟩ := List.mem_filterMap.mp hv
              exact keepMaterialItem_fix a v hav (hz2 v hv))
          exact normalizeE_build
            ([("bid_items", PyVal.pylist (lb.filterMap keepBidItem)),
              ("specifications", PyVal.pylist (ls.filterMap keepSpecItem)),
              ("project_info", normalizeProjectInfo (pyGetD d "project_info" (.pydict []))),
              ("materials", PyVal.pylist (lm.filterMap keepMaterialItem))]
              ++ [("raw_text", kv.snd)])
            _ _ _ _ rfl hb2 hs2 hm2 (normalizeProjectInfo_idem _)
      | none =>
          rw [hraw] at h
          simp only [Except.ok.injEq] at h
          subst h
          have hz1 : ∀ v ∈ lb.filterMap keepBidItem, itemZeroFree v := hz.1
          have hz2 : ∀ v ∈ lm.filterMap keepMaterialItem, matZeroFree v := hz.2
          have hb2 : normalizeBidItems (.pylist (lb.filterMap keepBidItem))
              = .ok (.pylist (lb.filterMap keepBidItem)) :=
            normalizeBidItems_fix _ (fun v hv => by
              obtain ⟨a, ha, hav⟩ := List.mem_filterMap.mp hv
              exact keepBidItem_fix a v hav (hz1 v hv))
          have hs2 : normalizeSpecifications (.pylist (ls.filterMap keepSpecItem))
              = .ok (.pylist (ls.filterMap keepSpecItem)) :=
            normalizeSpecifications_fix _ (fun v hv => by
              obtain ⟨a, ha, hav⟩ := List.mem_filterMap.mp hv
              exact keepSpecItem_fix a v hav)
          have hm2 : normalizeMaterials (.pylist (lm.filterMap keepMaterialItem))
              = .ok (.pylist (lm.filterMap keepMaterialItem)) :=
            normalizeMaterials_fix _ (fun v hv => by
              obtain ⟨a, ha, hav⟩ := List.mem_filterMap.mp hv
              exact keepMaterialItem_fix a v hav (hz2 v hv))
          exact normalizeE_build
            [("bid_items", PyVal.pylist (lb.filterMap keepBidItem)),
             ("specifications", PyVal.pylist (ls.filterMap keepSpecItem)),
             ("project_info", normalizeProjectInfo (pyGetD d "project_info" (.pydict []))),
             ("materials", PyVal.pylist (lm.filterMap keepMaterialItem))]
            _ _ _ _ rfl hb2 hs2 hm2 (normalizeProjectInfo_idem _)

/-- Projection used by the idempotence counterexample: the quantity of
the first bid item of a payload. -/
def firstBidQuantity (y : PyVal) : PyVal :=
  match y with
  | .pydict d =>
      match pyGet d "bid_items" with
      | .pylist (v :: _) =>
          match v with
          | .pydict m => pyGet m "quantity"
          | _ => .pynone
      | _ => .pynone
  | _ => .pynone

/-- A payload whose only bid item has the string quantity "0". -/
def c7input : PyVal :=
  .pydict [("bid_items", .pylist
    [.pydict [("item_number", .pystr "1"), ("quantity", .pystr "0")]])]

/-- Counterexample to C7 as stated: normalize is not idempotent.  One
pass turns the string quantity "0" into the float 0.0; a second pass
finds 0.0 falsy, the alias chain collapses to None, and the quantity is
erased. -/
theorem claim7_counterexample :
    Except.map firstBidQuantity (normalizeE c7input) = .ok (.pyfloat 0) ∧
    Except.map firstBidQuantity ((normalizeE c7input).bind normalizeE) = .ok .pynone ∧
    PyVal.pynone ≠ PyVal.pyfloat 0 :=
  ⟨rfl, rfl, fun hcontra => PyVal.noConfusion hcontra⟩

/-- A truthy raw payload with no items at all. -/
def c7plain : PyVal := .pydict [("raw_text", .pystr "plans")]

/-- Its normal form under OutputNormalizer.normalize. -/
def c7plainNorm : PyVal :=
  .pydict
    [("bid_items", .pylist []),
     ("specifications", .pylist []),
     ("project_info", .pydict [("name", .pynone), ("location", .pynone), ("bid_date", .pynone)]),
     ("materials", .pylist []),
     ("raw_text", .pystr "plans")]

/-- Witness for the amended C7 theorem at a concrete input. -/
theorem claim7_witness :
    normalizeE c7plain = .ok c7plainNorm ∧
    payloadZeroFree c7plainNorm ∧ normalizeE c7plainNorm = .ok c7plainNorm := by
  have h : normalizeE c7plain = .ok c7plainNorm := rfl
  have hz : payloadZeroFree c7plainNorm :=
    ⟨fun v hv => absurd hv (List.not_mem_nil v), fun v hv => absurd hv (List.not_mem_nil v)⟩
  exact ⟨h, hz, claim7_normalize_conditional_idem c7plain c7plainNorm h hz⟩
